import Mathlib

/-!
Verification of the CSV-to-order pipeline of the shopify-corporate-addresses
application: the CSV tokenizer, row validation and normalization, order
grouping (`parseCsvToOrders` of `src/app/routes/app._index.tsx`, duplicated in
`src/extensions/csv-order-importer-block/src/BlockExtension.tsx`), the import
action's submission loop, the shipping-report CSV export of
`src/app/routes/app.report.tsx`, and the report-tag pagination loop.

Strings are modelled as lists of characters (`Str`); JavaScript numbers that
hold row counts and quantities are modelled as `Nat`/`Int` (the integer values
reachable here are far below 2^53, where JavaScript numbers are exact).
Effectful collaborators (the GraphQL client) are modelled as explicit oracles:
a function from the call's position to the call's outcome.
-/

namespace SCA

/-- Strings as lists of characters. -/
abbrev Str := List Char

/-- Embed a Lean string literal into the character-list model. -/
def str (s : String) : Str := s.toList

/-- Whitespace as recognised by JavaScript's `String.prototype.trim`
(the ASCII whitespace characters plus NBSP and the BOM). -/
def isJsWhitespace (c : Char) : Bool :=
  c = ' ' || c = '\t' || c = '\n' || c = '\r' ||
    c = '\x0b' || c = '\x0c' || c = ' ' || c = '﻿'

/-- JavaScript `value.trim()`. -/
def jsTrim (s : Str) : Str :=
  ((s.dropWhile isJsWhitespace).reverse.dropWhile isJsWhitespace).reverse

/-- JavaScript `value.toLowerCase()` (ASCII letters; headers here are ASCII). -/
def jsToLower (s : Str) : Str := s.map Char.toLower

/-- JavaScript `value.toUpperCase()` (ASCII letters). -/
def jsToUpper (s : Str) : Str := s.map Char.toUpper

/-- Decimal rendering of a number, as in a template literal. -/
def natStr (n : Nat) : Str := (toString n).toList

/-- Numeric value of a digit string (most significant digit first). -/
def digitsVal (ds : Str) : Nat := ds.foldl (fun a c => a * 10 + (c.toNat - 48)) 0

/-- Value of the longest leading run of decimal digits, if there is one. -/
def leadingDigitsVal (s : Str) : Option Nat :=
  let ds := s.takeWhile Char.isDigit
  if ds.isEmpty then none else some (digitsVal ds)

/-- JavaScript `Number.parseInt(s, 10)`: skip whitespace, read an optional
sign and then the longest run of decimal digits; `none` is `NaN`. -/
def jsParseInt (s : Str) : Option Int :=
  let t := s.dropWhile isJsWhitespace
  match t with
  | '-' :: rest => (leadingDigitsVal rest).map (fun n => -(n : Int))
  | '+' :: rest => (leadingDigitsVal rest).map (fun n => (n : Int))
  | _ => (leadingDigitsVal t).map (fun n => (n : Int))

/-- JavaScript `value.split(/[|,]/g)`: split at every comma or pipe. -/
def splitCommaPipe : Str → List Str
  | [] => [[]]
  | c :: rest =>
    if c = ',' ∨ c = '|' then [] :: splitCommaPipe rest
    else
      match splitCommaPipe rest with
      | [] => [[c]]
      | f :: fs => (c :: f) :: fs

/-! The CSV tokenizer `parseCsvRows` (app._index.tsx lines 2540-2587). -/

/-- Source `isEmptyArrayRow`: every cell is empty after trimming. -/
def isEmptyArrayRow (row : List Str) : Bool := row.all (fun cell => (jsTrim cell).isEmpty)

/-- Source `csvText.replace(/^﻿/, "")`: drop one leading BOM. -/
def stripBom : Str → Str
  | '﻿' :: rest => rest
  | s => s

/-- The tokenizer's `rows.push(row)` guarded by the blank-row check. -/
def pushRow (rows : List (List Str)) (row : List Str) : List (List Str) :=
  if isEmptyArrayRow row then rows else rows ++ [row]

/-- The character loop of source `parseCsvRows`: state is the quote flag, the
current field, the current row and the emitted rows. The source tests, in
order: the quote character (with lookahead for an escaped `""`), an unquoted
comma, an unquoted newline (with lookahead for `\r\n`), and otherwise appends
the character to the current field; the ordered patterns below mirror that. -/
def parseCsvRowsAux : List Char → Bool → Str → List Str → List (List Str) → List (List Str)
  | [], _, field, row, rows => pushRow rows (row ++ [field])
  | '"' :: '"' :: rest, true, field, row, rows =>
    parseCsvRowsAux rest true (field ++ ['"']) row rows
  | '"' :: rest, true, field, row, rows => parseCsvRowsAux rest false field row rows
  | '"' :: rest, false, field, row, rows => parseCsvRowsAux rest true field row rows
  | ',' :: rest, false, field, row, rows => parseCsvRowsAux rest false [] (row ++ [field]) rows
  | '\r' :: '\n' :: rest, false, field, row, rows =>
    parseCsvRowsAux rest false [] [] (pushRow rows (row ++ [field]))
  | '\n' :: rest, false, field, row, rows =>
    parseCsvRowsAux rest false [] [] (pushRow rows (row ++ [field]))
  | '\r' :: rest, false, field, row, rows =>
    parseCsvRowsAux rest false [] [] (pushRow rows (row ++ [field]))
  | c :: rest, inQuotes, field, row, rows =>
    parseCsvRowsAux rest inQuotes (field ++ [c]) row rows

/-- Source `parseCsvRows`: tokenize CSV text into rows of field strings. -/
def parseCsvRows (csvText : Str) : List (List Str) :=
  parseCsvRowsAux (stripBom csvText) false [] [] []

example : parseCsvRows (str "a,b\nc,d") = [[str "a", str "b"], [str "c", str "d"]] := rfl

example : parseCsvRows (str "a,\"x,\"\"y\"\"\nz\"\r\nb,") =
    [[str "a", str "x,\"y\"\nz"], [str "b", str ""]] := rfl

example : parseCsvRows (str "a\n , \nb") = [[str "a"], [str "b"]] := rfl

/-! Header-to-value records (JavaScript objects: insertion-ordered keys,
assignment overwrites in place). -/

/-- A CSV record: keys in insertion order, each key once. -/
abbrev CsvRecord := List (Str × Str)

/-- JavaScript `record[key] = value`: overwrite in place or append. -/
def objSet (r : CsvRecord) (k v : Str) : CsvRecord :=
  match r with
  | [] => [(k, v)]
  | (k0, v0) :: rest => if k0 = k then (k0, v) :: rest else (k0, v0) :: objSet rest k v

/-- JavaScript `record[key]`: the value stored at `key`, if any. -/
def objGet (r : CsvRecord) (k : Str) : Option Str :=
  (r.find? (fun p => p.1 = k)).map (fun p => p.2)

/-- Source `normalizeHeader`: trim and lowercase. -/
def normalizeHeader (value : Str) : Str := jsToLower (jsTrim value)

/-- Source `toRecord`: `headers.forEach((header, index) => record[header] = row[index] ?? "")`. -/
def toRecord (headers : List Str) (row : List Str) : CsvRecord :=
  headers.enum.foldl (fun rec p => objSet rec p.2 (row.getD p.1 [])) []

/-- Source `isEmptyRecord`: every stored value is empty after trimming. -/
def isEmptyRecord (record : CsvRecord) : Bool :=
  record.all (fun p => (jsTrim p.2).isEmpty)

/-- Source `readColumn`: `(record[key] ?? "").trim()`. -/
def readColumn (record : CsvRecord) (key : Str) : Str :=
  jsTrim ((objGet record key).getD [])

/-! The variant-id importer's row validation and normalization
(app._index.tsx lines 2637-2728, BlockExtension.tsx lines 645-736). -/

/-- Source `REQUIRED_COLUMNS` of the variant-id importer (line 2099). -/
def REQUIRED_COLUMNS : List Str :=
  [str "order_key", str "email", str "variant_id", str "quantity"]

/-- Source `normalizeVariantId`: a purely numeric id (`/^\d+$/`) is rewritten
to the global-id form, everything else passes through. -/
def normalizeVariantId (value : Str) : Str :=
  if value ≠ [] ∧ value.all Char.isDigit then str "gid://shopify/ProductVariant/" ++ value
  else value

/-- Source `parseTags`: split on comma or pipe, trim, keep non-empty entries;
an empty input or an all-blank split yields `none` (`undefined`). -/
def parseTags (value : Str) : Option (List Str) :=
  if value = [] then none
  else
    let tags := ((splitCommaPipe value).map jsTrim).filter (fun t => ¬ t.isEmpty)
    if tags.length > 0 then some tags else none

/-- An optional field holding `readColumn ... || undefined`. -/
def orUndef (s : Str) : Option Str := if s.isEmpty then none else some s

/-- Source `ShippingAddress` shape (all fields optional). -/
structure ShippingAddress where
  firstName : Option Str
  lastName : Option Str
  address1 : Option Str
  city : Option Str
  provinceCode : Option Str
  countryCode : Option Str
  zip : Option Str
  phone : Option Str
  deriving Repr, DecidableEq

/-- Source `buildShippingAddress`: include the sub-object only if at least
one shipping field is non-empty. -/
def buildShippingAddress (record : CsvRecord) : Option ShippingAddress :=
  let sa : ShippingAddress :=
    { firstName := orUndef (readColumn record (str "shipping_first_name"))
      lastName := orUndef (readColumn record (str "shipping_last_name"))
      address1 := orUndef (readColumn record (str "shipping_address1"))
      city := orUndef (readColumn record (str "shipping_city"))
      provinceCode := orUndef (readColumn record (str "shipping_province_code"))
      countryCode := orUndef (readColumn record (str "shipping_country_code"))
      zip := orUndef (readColumn record (str "shipping_zip"))
      phone := orUndef (readColumn record (str "phone")) }
  let hasAnyField := sa.firstName.isSome || sa.lastName.isSome || sa.address1.isSome ||
    sa.city.isSome || sa.provinceCode.isSome || sa.countryCode.isSome ||
    sa.zip.isSome || sa.phone.isSome
  if hasAnyField then some sa else none

/-- A validated, normalized row (the `value` of `normalizeRow`'s ok result). -/
structure NormalizedRow where
  orderKey : Str
  email : Str
  variantId : Str
  quantity : Int
  currency : Option Str
  note : Option Str
  tags : Option (List Str)
  shippingAddress : Option ShippingAddress
  deriving Repr, DecidableEq

/-- Result of `normalizeRow`: the validated value, or the row's error list. -/
inductive RowParse where
  | ok (value : NormalizedRow)
  | err (rowErrors : List Str)
  deriving Repr, DecidableEq

/-- The error list carried by a `RowParse` (empty for an accepted row). -/
def rowParseErrors : RowParse → List Str
  | .ok _ => []
  | .err es => es

/-- The `Row ${rowNumber}` prefix shared by every row-level message. -/
def rowPrefix (n : Nat) : Str := str "Row " ++ natStr n

/-- Error message for a missing required column. -/
def requiredMsg (n : Nat) (column : String) : Str :=
  rowPrefix n ++ str (": " ++ column ++ " is required.")

/-- Error message for a quantity that is not a positive integer. -/
def quantityMsg (n : Nat) : Str :=
  rowPrefix n ++ str ": quantity must be a positive integer."

/-- The validation-error list of source `normalizeRow`: one message per
violated rule, in the source's check order. -/
def rowErrorsOf (record : CsvRecord) (rowNumber : Nat) : List Str :=
  (if (readColumn record (str "order_key")).isEmpty then [requiredMsg rowNumber "order_key"]
   else []) ++
  (if (readColumn record (str "email")).isEmpty then [requiredMsg rowNumber "email"]
   else []) ++
  (if (readColumn record (str "variant_id")).isEmpty then [requiredMsg rowNumber "variant_id"]
   else []) ++
  (match jsParseInt (readColumn record (str "quantity")) with
   | none => [quantityMsg rowNumber]
   | some q => if q ≤ 0 then [quantityMsg rowNumber] else [])

/-- Source `normalizeRow`: check the four required values, check the quantity
parses to a positive integer, then build the normalized value. -/
def normalizeRow (record : CsvRecord) (rowNumber : Nat) : RowParse :=
  let orderKey := readColumn record (str "order_key")
  let email := readColumn record (str "email")
  let variantIdRaw := readColumn record (str "variant_id")
  let quantityRaw := readColumn record (str "quantity")
  let rowErrors := rowErrorsOf record rowNumber
  if rowErrors ≠ [] then .err rowErrors
  else
    let currency := readColumn record (str "currency_code")
    .ok
      { orderKey
        email
        variantId := normalizeVariantId variantIdRaw
        quantity := (jsParseInt quantityRaw).getD 0
        currency := if currency.isEmpty then none else some (jsToUpper currency)
        note := orUndef (readColumn record (str "note"))
        tags := parseTags (readColumn record (str "tags"))
        shippingAddress := buildShippingAddress record }

/-- Source `CsvPreviewRow`. -/
structure CsvPreviewRow where
  rowNumber : Nat
  orderKey : Str
  email : Str
  variantId : Str
  quantity : Str
  recipient : Str
  destination : Str
  deriving Repr, DecidableEq

/-- Source `buildPreviewRow`: the preview of one record. -/
def buildPreviewRow (record : CsvRecord) (rowNumber : Nat) : CsvPreviewRow :=
  let recipient := List.intercalate (str " ")
    (([readColumn record (str "shipping_first_name"),
       readColumn record (str "shipping_last_name")]).filter (fun s => ¬ s.isEmpty))
  let destination := List.intercalate (str ", ")
    (([readColumn record (str "shipping_city"),
       readColumn record (str "shipping_province_code"),
       readColumn record (str "shipping_country_code")]).filter (fun s => ¬ s.isEmpty))
  { rowNumber
    orderKey := readColumn record (str "order_key")
    email := readColumn record (str "email")
    variantId := readColumn record (str "variant_id")
    quantity := readColumn record (str "quantity")
    recipient
    destination }

/-- Source `InvalidRow`: a preview row plus its error message. -/
structure InvalidRow extends CsvPreviewRow where
  errorMessage : Str
  deriving Repr, DecidableEq

/-- Source line item: a variant reference and a quantity. -/
structure LineItem where
  variantId : Str
  quantity : Int
  deriving Repr, DecidableEq

/-- Source `OrderCreateInput`. -/
structure OrderCreateInput where
  email : Str
  lineItems : List LineItem
  currency : Option Str
  note : Option Str
  tags : Option (List Str)
  shippingAddress : Option ShippingAddress
  deriving Repr, DecidableEq

/-- Source `OrderDraft`: grouping key, originating row numbers, order input. -/
structure OrderDraft where
  orderKey : Str
  rowNumbers : List Nat
  input : OrderCreateInput
  deriving Repr, DecidableEq

/-- Source `ParseResult`. -/
structure ParseResult where
  rowCount : Nat
  orders : List OrderDraft
  previewRows : List CsvPreviewRow
  invalidRows : List InvalidRow
  errors : List Str
  deriving Repr, DecidableEq

/-! The grouping loop of source `parseCsvToOrders` (app._index.tsx lines
2444-2538). The JavaScript `Map` of drafts is modelled as a list in insertion
order with `Array.from(map.values())` the list itself: `get` is the first (and
only) entry with the key, `set` of a new key appends, and mutating the found
draft updates that entry in place. -/

/-- Source `groupedOrders.get(orderKey)`. -/
def findDraft (grouped : List OrderDraft) (k : Str) : Option OrderDraft :=
  grouped.find? (fun d => d.orderKey = k)

/-- The draft created for the first row of a key. -/
def mkDraft (v : NormalizedRow) (rowNumber : Nat) : OrderDraft :=
  { orderKey := v.orderKey
    rowNumbers := [rowNumber]
    input :=
      { email := v.email
        lineItems := [{ variantId := v.variantId, quantity := v.quantity }]
        currency := v.currency
        note := v.note
        tags := v.tags
        shippingAddress := v.shippingAddress } }

/-- Mutating the draft stored under `k`: push a line item and a row number. -/
def appendToDraft (grouped : List OrderDraft) (k : Str) (li : LineItem) (n : Nat) :
    List OrderDraft :=
  grouped.map (fun d =>
    if d.orderKey = k then
      { d with rowNumbers := d.rowNumbers ++ [n],
               input := { d.input with lineItems := d.input.lineItems ++ [li] } }
    else d)

/-- The conflict error message for a row whose email differs from the earlier
rows of its `order_key` group. -/
def conflictMsg (n : Nat) (orderKey : Str) : Str :=
  str "Row " ++ natStr n ++ str ": email does not match earlier rows for order_key=" ++
    orderKey

/-- The grouping update for one valid row, exactly the source's three cases:
no draft yet (create), email mismatch (leave unchanged), match (append). -/
def groupStep (grouped : List OrderDraft) (p : Nat × NormalizedRow) : List OrderDraft :=
  match findDraft grouped p.2.orderKey with
  | none => grouped ++ [mkDraft p.2 p.1]
  | some existing =>
    if existing.input.email ≠ p.2.email then grouped
    else
      let li : LineItem := { variantId := p.2.variantId, quantity := p.2.quantity }
      appendToDraft grouped p.2.orderKey li p.1

/-- State of the row loop of `parseCsvToOrders`. -/
structure LoopState where
  errors : List Str
  invalidRows : List InvalidRow
  previewRows : List CsvPreviewRow
  grouped : List OrderDraft
  deriving Repr, DecidableEq

/-- The empty initial loop state. -/
def initState : LoopState := { errors := [], invalidRows := [], previewRows := [], grouped := [] }

/-- One iteration of the row loop of `parseCsvToOrders`: `p` is the pair of
the source's `rowIndex` and `rows[rowIndex]`. -/
def processRow (headers : List Str) (st : LoopState) (p : Nat × List Str) : LoopState :=
  let csvRow := toRecord headers p.2
  if isEmptyRecord csvRow then st
  else
    let rowNumber := p.1 + 1
    let previewRow := buildPreviewRow csvRow rowNumber
    let st1 := { st with previewRows := st.previewRows ++ [previewRow] }
    match normalizeRow csvRow rowNumber with
    | .err rowErrors =>
      { st1 with
        errors := st1.errors ++ rowErrors,
        invalidRows := st1.invalidRows ++
          [{ previewRow with errorMessage := List.intercalate (str " | ") rowErrors }] }
    | .ok v =>
      match findDraft st1.grouped v.orderKey with
      | none => { st1 with grouped := st1.grouped ++ [mkDraft v rowNumber] }
      | some existing =>
        if existing.input.email ≠ v.email then
          { st1 with
            errors := st1.errors ++ [conflictMsg rowNumber v.orderKey],
            invalidRows := st1.invalidRows ++
              [{ previewRow with errorMessage := conflictMsg rowNumber v.orderKey }] }
        else
          let li : LineItem := { variantId := v.variantId, quantity := v.quantity }
          { st1 with grouped := appendToDraft st1.grouped v.orderKey li rowNumber }

/-- The source's data rows paired with their `rowIndex` (1-based: index 0 is
the header row). -/
def indexedDataRows (rows : List (List Str)) : List (Nat × List Str) :=
  List.enumFrom 1 (rows.drop 1)

/-- Source `parseCsvToOrders`: tokenize, validate the header, then run the row
loop and assemble the `ParseResult`. -/
def parseCsvToOrders (csvText : Str) : ParseResult :=
  let rows := parseCsvRows csvText
  if rows.length < 2 then
    { rowCount := 0, orders := [], previewRows := [], invalidRows := [],
      errors := [str "CSV must include a header row and at least one data row."] }
  else
    let headers := (rows.headD []).map normalizeHeader
    let missingHeaders := REQUIRED_COLUMNS.filter (fun h => ¬ headers.contains h)
    if missingHeaders ≠ [] then
      { rowCount := rows.length - 1, orders := [], previewRows := [], invalidRows := [],
        errors := [str "Missing required columns: " ++
          List.intercalate (str ", ") missingHeaders] }
    else
      let st := (indexedDataRows rows).foldl (processRow headers) initState
      let errors := st.errors ++
        (if st.previewRows.length = 0 then [str "No non-empty data rows found."] else [])
      { rowCount := st.previewRows.length, orders := st.grouped,
        previewRows := st.previewRows, invalidRows := st.invalidRows, errors }

/-! The shipping-report CSV export (app.report.tsx lines 1138-1159). -/

/-- Source `value.replace(/\r?\n/g, " ")`: each `\r\n` or lone `\n` becomes a
space; a `\r` not followed by `\n` is kept. -/
def flattenNewlines : Str → Str
  | [] => []
  | '\r' :: '\n' :: rest => ' ' :: flattenNewlines rest
  | '\n' :: rest => ' ' :: flattenNewlines rest
  | c :: rest => c :: flattenNewlines rest

/-- Source `normalized.replace(/"/g, '""')`: double every double quote. -/
def doubleQuotes (s : Str) : Str :=
  s.flatMap (fun c => if c = '"' then ['"', '"'] else [c])

/-- Source `csvEscape`: flatten newlines to spaces, then quote-wrap with
embedded quotes doubled. -/
def csvEscape (value : Str) : Str :=
  '"' :: doubleQuotes (flattenNewlines value) ++ ['"']

/-- Source `ShippingReportOrder` (app.report.tsx lines 12-17). -/
structure ShippingReportOrder where
  id : Str
  name : Str
  customerName : Str
  trackingNumbers : List Str
  deriving Repr, DecidableEq

/-- The fixed header row of the shipping-report CSV. -/
def SHIPPING_REPORT_HEADER : List Str :=
  [str "Order Number", str "Customer Name", str "Tracking Numbers"]

/-- The three field values of one report row: order name, customer name, and
`trackingNumbers.join("; ") || "No tracking"`. -/
def reportRowFields (o : ShippingReportOrder) : List Str :=
  [o.name, o.customerName,
   if (List.intercalate (str "; ") o.trackingNumbers).isEmpty then str "No tracking"
   else List.intercalate (str "; ") o.trackingNumbers]

/-- Source `buildShippingReportCsv`: escape every value, join fields with
commas and rows with `\n`. -/
def buildShippingReportCsv (orders : List ShippingReportOrder) : Str :=
  List.intercalate (str "\n")
    ((SHIPPING_REPORT_HEADER :: orders.map reportRowFields).map
      (fun row => List.intercalate (str ",") (row.map csvEscape)))

/-! The import action's submission loop (app._index.tsx lines 2120-2196) and
`createOrder`'s error conversion (lines 2744-2793). The GraphQL client is an
external collaborator: a call's outcome is given by an oracle. -/

/-- Source `RowResult`: a preview row plus a status and an error message. -/
structure RowResult extends CsvPreviewRow where
  status : Str
  errorMessage : Str
  deriving Repr, DecidableEq

/-- Source `OrderCreateResponse`: `{ok: true, id, name}` or `{ok: false, message}`. -/
inductive CreateResult where
  | ok (id : Str) (name : Str)
  | failure (message : Str)
  deriving Repr, DecidableEq

/-- The parsed JSON of one `orderCreate` call, or the exception it threw:
`thrown (some m)` is a thrown `Error` with message `m`, `thrown none` any
other thrown value; `response errs oc` carries the top-level GraphQL error
messages and `json.data?.orderCreate` with the created order's id and name
and the `userErrors` messages. -/
inductive GraphQLOutcome where
  | thrown (message : Option Str)
  | response (errs : List Str) (orderCreate : Option (Option (Str × Str) × List Str))
  deriving Repr, DecidableEq

/-- Source `createOrder` minus the wire call: convert the call's outcome into
an `ok`/`failure` result, never re-throwing. -/
def createOrderResult : GraphQLOutcome → CreateResult
  | .thrown (some m) => .failure m
  | .thrown none => .failure (str "Unexpected error while creating order.")
  | .response errs oc =>
    if errs ≠ [] then .failure (List.intercalate (str "; ") errs)
    else
      let userErrors := (oc.map (fun p => p.2)).getD []
      if userErrors ≠ [] then .failure (List.intercalate (str "; ") userErrors)
      else
        match oc with
        | some (some (id, name), _) =>
          if id.isEmpty then .failure (str "Unknown orderCreate response.")
          else .ok id name
        | _ => .failure (str "Unknown orderCreate response.")

/-- The action's parsed payload (after the structural checks). -/
structure ActionPayload where
  orders : List OrderDraft
  previewRows : List CsvPreviewRow
  invalidRows : List InvalidRow
  rowCount : Option Nat
  deriving Repr, DecidableEq

/-- Source `rowLookup.get(rowNumber)` for the `Map` built from
`previewRows.map(row => [row.rowNumber, row])`: the last entry with the key
wins, as `Map` construction overwrites earlier entries. -/
def rowLookupGet (previewRows : List CsvPreviewRow) (n : Nat) : Option CsvPreviewRow :=
  previewRows.reverse.find? (fun row => row.rowNumber = n)

/-- Accumulated state of the action's draft loop: results pushed so far and
the success / failed / ordersCreated counters. -/
structure SubmitState where
  results : List RowResult
  successCount : Nat
  failedCount : Nat
  ordersCreatedCount : Nat
  deriving Repr, DecidableEq

/-- The inner row loop for one draft: look each originating row number up,
skip missing ones, and push a success or failure result. -/
def pushDraftRows (previewRows : List CsvPreviewRow) (created : CreateResult)
    (st : SubmitState) (rowNumbers : List Nat) : SubmitState :=
  rowNumbers.foldl
    (fun st n =>
      match rowLookupGet previewRows n with
      | none => st
      | some row =>
        match created with
        | .ok _ _ =>
          { st with
            results := st.results ++ [{ row with status := str "success", errorMessage := [] }],
            successCount := st.successCount + 1 }
        | .failure m =>
          { st with
            results := st.results ++ [{ row with status := str "failed", errorMessage := m }],
            failedCount := st.failedCount + 1 })
    st

/-- One iteration of the action's draft loop: `p` pairs the draft with its
position, and `outcomes` gives the `createOrder` outcome of each position. -/
def submitDraft (previewRows : List CsvPreviewRow) (outcomes : Nat → CreateResult)
    (st : SubmitState) (p : Nat × OrderDraft) : SubmitState :=
  let created := outcomes p.1
  let st1 := pushDraftRows previewRows created st p.2.rowNumbers
  match created with
  | .ok _ _ => { st1 with ordersCreatedCount := st1.ordersCreatedCount + 1 }
  | .failure _ => st1

/-- Comparison used by `processedResults.sort((a, b) => a.rowNumber - b.rowNumber)`. -/
def byRowNumber (a b : RowResult) : Prop := a.rowNumber ≤ b.rowNumber

instance : DecidableRel byRowNumber := fun a b => Nat.decLe a.rowNumber b.rowNumber

instance : IsTotal RowResult byRowNumber := ⟨fun a b => Nat.le_total a.rowNumber b.rowNumber⟩

instance : IsTrans RowResult byRowNumber := ⟨fun _ _ _ h1 h2 => Nat.le_trans h1 h2⟩

/-- The data returned by the action on the success path. -/
structure ImportActionData where
  total : Nat
  success : Nat
  failed : Nat
  ordersCreated : Nat
  results : List RowResult
  deriving Repr, DecidableEq

/-- Source `(payload.invalidRows ?? []).map(row => ({...row, status: "failed"}))`. -/
def invalidRowResults (rows : List InvalidRow) : List RowResult :=
  rows.map (fun row =>
    { row.toCsvPreviewRow with status := str "failed", errorMessage := row.errorMessage })

/-- The row result pushed for one looked-up row, by the draft's outcome. -/
def mkRowResult (row : CsvPreviewRow) (created : CreateResult) : RowResult :=
  match created with
  | .ok _ _ => { row with status := str "success", errorMessage := [] }
  | .failure m => { row with status := str "failed", errorMessage := m }

/-- The row results one draft contributes: its originating row numbers that
resolve in the preview-row lookup, marked by the draft's outcome. -/
def draftResults (previewRows : List CsvPreviewRow) (created : CreateResult)
    (draft : OrderDraft) : List RowResult :=
  draft.rowNumbers.filterMap (fun n =>
    (rowLookupGet previewRows n).map (fun row => mkRowResult row created))

/-- The import action's submission loop (the success path of source `action`):
seed the results with the invalid rows, submit every draft in order against
the outcome oracle, then sort the results by original row number
(JavaScript's stable sort, modelled by insertion sort). -/
def runImportAction (payload : ActionPayload) (outcomes : Nat → CreateResult) :
    ImportActionData :=
  let init : SubmitState :=
    { results := invalidRowResults payload.invalidRows, successCount := 0,
      failedCount := payload.invalidRows.length, ordersCreatedCount := 0 }
  let st := payload.orders.enum.foldl (submitDraft payload.previewRows outcomes) init
  let processedResults := List.insertionSort byRowNumber st.results
  { total := payload.rowCount.getD st.results.length,
    success := st.successCount,
    failed := st.failedCount,
    ordersCreated := st.ordersCreatedCount,
    results := processedResults }

/-! The report-tag pagination loop of `loadReportTagsFromOrders`
(app.report.tsx lines 836-914). -/

/-- Source `REPORT_TAG_SCAN_MAX_PAGES` (app.report.tsx line 40). -/
def REPORT_TAG_SCAN_MAX_PAGES : Nat := 10

/-- One parsed page of the orders query: the top-level GraphQL error
messages, each edge's tag list, and the page info. -/
structure TagPage where
  errs : List Str
  edgeTags : List (List Str)
  hasNextPage : Bool
  endCursor : Option Str
  deriving Repr, DecidableEq

/-- Source `tagCounts.set(normalized, (tagCounts.get(normalized) ?? 0) + 1)`
on the insertion-ordered count map. -/
def bumpTag (counts : List (Str × Nat)) (tag : Str) : List (Str × Nat) :=
  match counts with
  | [] => [(tag, 1)]
  | (t, c) :: rest => if t = tag then (t, c + 1) :: rest else (t, c) :: bumpTag rest tag

/-- The nested edge/tag accumulation of one page: trim each tag, skip blank
ones, count the rest. -/
def accumulateTags (counts : List (Str × Nat)) (edgeTags : List (List Str)) :
    List (Str × Nat) :=
  edgeTags.foldl
    (fun counts tags =>
      tags.foldl
        (fun counts tag =>
          let normalized := jsTrim tag
          if normalized.isEmpty then counts else bumpTag counts normalized)
        counts)
    counts

/-- Result of the pagination loop: the tag counts in first-seen order, the
number of order-page queries issued, and the error of a failed page. -/
structure TagLoadResult where
  tagCounts : List (Str × Nat)
  pagesLoaded : Nat
  error : Option Str
  deriving Repr, DecidableEq

/-- The `while (hasNextPage && pagesLoaded < REPORT_TAG_SCAN_MAX_PAGES)` loop
of source `loadReportTagsFromOrders`, structurally recursive on the remaining
page budget (`REPORT_TAG_SCAN_MAX_PAGES - pagesLoaded`); `fetch i` is the
parsed response of the `i`-th issued query. On entry `hasNextPage` is true,
and the loop recurses only while it stays true, so the budget case split is
exactly the source's loop condition. -/
def loadPages (fetch : Nat → TagPage) : Nat → Nat → List (Str × Nat) → TagLoadResult
  | 0, pagesLoaded, counts =>
    { tagCounts := counts, pagesLoaded := pagesLoaded, error := none }
  | budget + 1, pagesLoaded, counts =>
    let page := fetch pagesLoaded
    if page.errs ≠ [] then
      { tagCounts := [], pagesLoaded := pagesLoaded + 1,
        error := some (List.intercalate (str "; ") page.errs) }
    else
      let counts1 := accumulateTags counts page.edgeTags
      let after := page.endCursor
      let hasNextPage := page.hasNextPage && after.isSome
      if hasNextPage then loadPages fetch budget (pagesLoaded + 1) counts1
      else { tagCounts := counts1, pagesLoaded := pagesLoaded + 1, error := none }

/-- The pagination loop of source `loadReportTagsFromOrders`, from its initial
state (`after = null`, `hasNextPage = true`, `pagesLoaded = 0`, empty counts);
`pagesLoaded` of the result is the number of queries issued. The post-loop
ranking of the counts is pure formatting and not modelled. -/
def loadReportTagsLoop (fetch : Nat → TagPage) : TagLoadResult :=
  loadPages fetch REPORT_TAG_SCAN_MAX_PAGES 0 []

/-! A second reading of one phrase of the specification, used to compare the
code's quantity check against the spec's words. -/

/-- Modelled from the spec's words for the quantity rule (not from the code):
the whole trimmed string is the decimal notation of a positive integer. -/
def specParsesAsPositiveInteger (s : Str) : Prop :=
  s ≠ [] ∧ (∀ c ∈ s, c.isDigit) ∧ 0 < digitsVal s

instance (s : Str) : Decidable (specParsesAsPositiveInteger s) := by
  unfold specParsesAsPositiveInteger; infer_instance

/-- A minimal record whose quantity column holds `q` (used to exercise the
quantity rule at concrete inputs). -/
def quantityRecord (q : Str) : CsvRecord :=
  [(str "order_key", str "k"), (str "email", str "e@x"),
   (str "variant_id", str "v1"), (str "quantity", q)]

/-! Supporting lemmas. -/

theorem rowParseErrors_normalizeRow (record : CsvRecord) (n : Nat) :
    rowParseErrors (normalizeRow record n) = rowErrorsOf record n := by
  unfold normalizeRow
  by_cases h : rowErrorsOf record n = []
  · simp [h, rowParseErrors]
  · simp [h, rowParseErrors]

theorem requiredMsg_ne_quantityMsg (n : Nat) (col : String)
    (h : str (": " ++ col ++ " is required.") ≠ str ": quantity must be a positive integer.") :
    requiredMsg n col ≠ quantityMsg n := by
  intro e
  exact h (List.append_cancel_left e)

theorem quantityMsg_mem_rowErrors (record : CsvRecord) (n : Nat) :
    quantityMsg n ∈ rowErrorsOf record n ↔
      ¬ ∃ q : Int, jsParseInt (readColumn record (str "quantity")) = some q ∧ 0 < q := by
  unfold rowErrorsOf
  have h1 : quantityMsg n ∉
      (if (readColumn record (str "order_key")).isEmpty then [requiredMsg n "order_key"]
       else []) := by
    split
    · simp [(requiredMsg_ne_quantityMsg n "order_key" (by decide)).symm]
    · simp
  have h2 : quantityMsg n ∉
      (if (readColumn record (str "email")).isEmpty then [requiredMsg n "email"] else []) := by
    split
    · simp [(requiredMsg_ne_quantityMsg n "email" (by decide)).symm]
    · simp
  have h3 : quantityMsg n ∉
      (if (readColumn record (str "variant_id")).isEmpty then [requiredMsg n "variant_id"]
       else []) := by
    split
    · simp [(requiredMsg_ne_quantityMsg n "variant_id" (by decide)).symm]
    · simp
  simp only [List.mem_append, h1, h2, h3, false_or]
  cases hq : jsParseInt (readColumn record (str "quantity")) with
  | none => simp
  | some q =>
    by_cases hq0 : q ≤ 0
    · simp only [if_pos hq0, List.mem_singleton, true_iff]
      rintro ⟨q2, hq2, hpos⟩
      cases hq2
      omega
    · simp only [if_neg hq0, List.not_mem_nil, false_iff, not_not]
      exact ⟨q, rfl, by omega⟩

/-! C3. The claim states the quantity field is accepted exactly when the
trimmed quantity string parses as a positive integer; the code uses
JavaScript `parseInt`, which ignores trailing non-digits, so `"3.5"` is
accepted although it is not the decimal notation of a positive integer. -/

/-- C3 counterexample: a row whose quantity is `"3.5"` passes validation with
no error at all, yet `"3.5"` does not parse as a positive integer (the claim's
acceptance condition is violated at this input). -/
theorem c3_quantity_counterexample :
    rowParseErrors (normalizeRow (quantityRecord (str "3.5")) 2) = [] ∧
    ¬ specParsesAsPositiveInteger (jsTrim (str "3.5")) := by
  constructor
  · decide
  · decide

/-- C3 amended: a row's quantity is accepted (no quantity error in the
`normalizeRow` error list) if and only if JavaScript `parseInt` of the trimmed
quantity string (optional sign, then the longest leading digit run, trailing
characters ignored) yields a positive value; in particular `"0"`, `"-1"` and
`"abc"` each produce the row-number-prefixed quantity error and `"3"` does
not. -/
theorem c3_quantity_rule_amended :
    (∀ (record : CsvRecord) (n : Nat),
      quantityMsg n ∈ rowParseErrors (normalizeRow record n) ↔
        ¬ ∃ q : Int, jsParseInt (readColumn record (str "quantity")) = some q ∧ 0 < q) ∧
    (∀ (record : CsvRecord) (n : Nat), readColumn record (str "quantity") = str "0" →
      quantityMsg n ∈ rowParseErrors (normalizeRow record n)) ∧
    (∀ (record : CsvRecord) (n : Nat), readColumn record (str "quantity") = str "-1" →
      quantityMsg n ∈ rowParseErrors (normalizeRow record n)) ∧
    (∀ (record : CsvRecord) (n : Nat), readColumn record (str "quantity") = str "abc" →
      quantityMsg n ∈ rowParseErrors (normalizeRow record n)) ∧
    (∀ (record : CsvRecord) (n : Nat), readColumn record (str "quantity") = str "3" →
      quantityMsg n ∉ rowParseErrors (normalizeRow record n)) := by
  have key : ∀ (record : CsvRecord) (n : Nat),
      quantityMsg n ∈ rowParseErrors (normalizeRow record n) ↔
        ¬ ∃ q : Int, jsParseInt (readColumn record (str "quantity")) = some q ∧ 0 < q := by
    intro record n
    rw [rowParseErrors_normalizeRow]
    exact quantityMsg_mem_rowErrors record n
  refine ⟨key, ?_, ?_, ?_, ?_⟩
  · intro record n h
    rw [key]
    rintro ⟨q, hq, hpos⟩
    rw [h] at hq
    have : q = 0 := by
      have : jsParseInt (str "0") = some 0 := by decide
      rw [this] at hq
      exact (Option.some_inj.mp hq).symm
    omega
  · intro record n h
    rw [key]
    rintro ⟨q, hq, hpos⟩
    rw [h] at hq
    have : jsParseInt (str "-1") = some (-1) := by decide
    rw [this] at hq
    have : q = -1 := (Option.some_inj.mp hq).symm
    omega
  · intro record n h
    rw [key]
    rintro ⟨q, hq, hpos⟩
    rw [h] at hq
    have : jsParseInt (str "abc") = none := by decide
    rw [this] at hq
    cases hq
  · intro record n h
    rw [key]
    intro hno
    refine hno ⟨3, ?_, by omega⟩
    rw [h]
    decide

/-- C3 witness: the amended rule evaluated at the concrete quantities `"0"`
(error produced) and `"3"` (no error). -/
theorem c3_quantity_rule_amended_witness :
    quantityMsg 2 ∈ rowParseErrors (normalizeRow (quantityRecord (str "0")) 2) ∧
    quantityMsg 2 ∉ rowParseErrors (normalizeRow (quantityRecord (str "3")) 2) :=
  ⟨c3_quantity_rule_amended.2.1 (quantityRecord (str "0")) 2 (by decide),
   c3_quantity_rule_amended.2.2.2.2 (quantityRecord (str "3")) 2 (by decide)⟩

/-! C4. The claim states `parseTags` removes duplicate entries; the code only
splits, trims and drops blanks, keeping duplicates. -/

/-- C4 counterexample: the tags value `"a,a"` parses to `["a", "a"]`, which
still contains a duplicate, so duplicate entries are not removed. -/
theorem c4_parseTags_counterexample :
    parseTags (str "a,a") = some [str "a", str "a"] ∧
    ¬ ([str "a", str "a"] : List Str).Nodup := by
  constructor
  · decide
  · decide

/-- C4 amended: `parseTags` splits the value on comma or pipe, trims every
entry and removes blank entries (duplicates are kept); the empty value and an
all-blank split yield `none`, and `"a|b, c"` normalizes to `["a","b","c"]`. -/
theorem c4_parseTags_amended :
    (∀ value : Str,
      parseTags value =
        (if value = [] ∨ ((splitCommaPipe value).map jsTrim).filter (fun t => ¬ t.isEmpty) = []
         then none
         else some (((splitCommaPipe value).map jsTrim).filter (fun t => ¬ t.isEmpty)))) ∧
    parseTags (str "a|b, c") = some [str "a", str "b", str "c"] := by
  constructor
  · intro value
    unfold parseTags
    by_cases hv : value = []
    · rw [if_pos hv, if_pos (Or.inl hv)]
    · rw [if_neg hv]
      show (if (((splitCommaPipe value).map jsTrim).filter (fun t => ¬ t.isEmpty)).length > 0
            then some (((splitCommaPipe value).map jsTrim).filter (fun t => ¬ t.isEmpty))
            else none) = _
      by_cases he : ((splitCommaPipe value).map jsTrim).filter (fun t => ¬ t.isEmpty) = []
      · rw [if_pos (Or.inr he), he]
        simp
      · rw [if_pos (List.length_pos.mpr he)]
        rw [if_neg (fun hor => hor.elim hv he)]
  · decide

/-! C6. `normalizeVariantId` rewrites purely numeric ids into the gid form
and passes everything else through. -/

/-- C6: a purely numeric variant id is rewritten to the
`gid://shopify/ProductVariant/` form, every other value (including an
already-prefixed gid) passes through unchanged; in particular for `"12345"`. -/
theorem c6_normalizeVariantId_spec :
    (∀ value : Str, value ≠ [] → (∀ c ∈ value, c.isDigit) →
      normalizeVariantId value = str "gid://shopify/ProductVariant/" ++ value) ∧
    (∀ value : Str, ¬ (value ≠ [] ∧ ∀ c ∈ value, c.isDigit) →
      normalizeVariantId value = value) ∧
    normalizeVariantId (str "12345") = str "gid://shopify/ProductVariant/12345" ∧
    normalizeVariantId (str "gid://shopify/ProductVariant/12345") =
      str "gid://shopify/ProductVariant/12345" := by
  refine ⟨?_, ?_, by decide, by decide⟩
  · intro value h1 h2
    have hc : value ≠ [] ∧ value.all Char.isDigit := ⟨h1, List.all_eq_true.mpr h2⟩
    unfold normalizeVariantId
    rw [if_pos hc]
  · intro value h
    have hc : ¬ (value ≠ [] ∧ value.all Char.isDigit) := by
      rintro ⟨h1, h2⟩
      exact h ⟨h1, List.all_eq_true.mp h2⟩
    unfold normalizeVariantId
    rw [if_neg hc]

/-- C6 witness: the general rewrite rule applied at the concrete numeric id
`"7"`. -/
theorem c6_normalizeVariantId_spec_witness :
    normalizeVariantId (str "7") = str "gid://shopify/ProductVariant/" ++ str "7" :=
  c6_normalizeVariantId_spec.1 (str "7") (by decide) (by decide)

/-! C9. The report-tag pagination loop is bounded and stops early. -/

theorem loadPages_pagesLoaded_le (fetch : Nat → TagPage) :
    ∀ (budget pl : Nat) (counts : List (Str × Nat)),
      (loadPages fetch budget pl counts).pagesLoaded ≤ pl + budget := by
  intro budget
  induction budget with
  | zero => intro pl counts; simp [loadPages]
  | succ b ih =>
    intro pl counts
    unfold loadPages
    by_cases herr : (fetch pl).errs ≠ []
    · simp only [if_pos herr]
      omega
    · simp only [if_neg herr]
      by_cases hnext : ((fetch pl).hasNextPage && (fetch pl).endCursor.isSome) = true
      · simp only [if_pos hnext]
        have := ih (pl + 1) (accumulateTags counts (fetch pl).edgeTags)
        omega
      · simp only [if_neg hnext]
        omega

theorem loadPages_early_stop (fetch : Nat → TagPage) :
    ∀ (k budget pl : Nat) (counts : List (Str × Nat)), k < budget →
      (∀ j, pl ≤ j → j < pl + k →
        (fetch j).errs = [] ∧ (fetch j).hasNextPage = true ∧ (fetch j).endCursor ≠ none) →
      (fetch (pl + k)).errs = [] →
      ((fetch (pl + k)).hasNextPage = false ∨ (fetch (pl + k)).endCursor = none) →
      (loadPages fetch budget pl counts).pagesLoaded = pl + k + 1 ∧
        (loadPages fetch budget pl counts).error = none := by
  intro k
  induction k with
  | zero =>
    intro budget pl counts hk hcont herr hstop
    match budget, hk with
    | b + 1, _ =>
      rw [Nat.add_zero] at herr hstop
      unfold loadPages
      rw [if_neg (by simp [herr])]
      have hnext : ((fetch pl).hasNextPage && (fetch pl).endCursor.isSome) = false := by
        rcases hstop with h | h
        · simp [h]
        · simp [h]
      rw [if_neg (by simp [hnext])]
      exact ⟨rfl, rfl⟩
  | succ k ih =>
    intro budget pl counts hk hcont herr hstop
    match budget, hk with
    | b + 1, _ =>
      have hpl := hcont pl (Nat.le_refl pl) (by omega)
      unfold loadPages
      rw [if_neg (by simp [hpl.1])]
      have hsome : (fetch pl).endCursor.isSome = true := by
        cases hcur : (fetch pl).endCursor with
        | none => exact absurd hcur hpl.2.2
        | some a => rfl
      rw [if_pos (by simp [hpl.2.1, hsome])]
      have hk2 : k < b := by omega
      have hcont2 : ∀ j, pl + 1 ≤ j → j < pl + 1 + k →
          (fetch j).errs = [] ∧ (fetch j).hasNextPage = true ∧ (fetch j).endCursor ≠ none := by
        intro j h1 h2
        exact hcont j (by omega) (by omega)
      have herr2 : (fetch (pl + 1 + k)).errs = [] := by
        have : pl + 1 + k = pl + (k + 1) := by omega
        rw [this]
        exact herr
      have hstop2 : (fetch (pl + 1 + k)).hasNextPage = false ∨
          (fetch (pl + 1 + k)).endCursor = none := by
        have : pl + 1 + k = pl + (k + 1) := by omega
        rw [this]
        exact hstop
      have := ih b (pl + 1) (accumulateTags counts (fetch pl).edgeTags) hk2 hcont2 herr2 hstop2
      refine ⟨?_, this.2⟩
      rw [this.1]
      omega

/-- C9: the pagination loop of `loadReportTagsFromOrders` always terminates
within `REPORT_TAG_SCAN_MAX_PAGES` (10) order-page queries, and as soon as a
page reports `hasNextPage = false` or a null end cursor the loop stops right
after that page as a normal (non-error) termination. -/
theorem c9_report_tag_pagination :
    (∀ fetch : Nat → TagPage,
      (loadReportTagsLoop fetch).pagesLoaded ≤ REPORT_TAG_SCAN_MAX_PAGES) ∧
    (∀ (fetch : Nat → TagPage) (k : Nat), k < REPORT_TAG_SCAN_MAX_PAGES →
      (∀ j, j < k →
        (fetch j).errs = [] ∧ (fetch j).hasNextPage = true ∧ (fetch j).endCursor ≠ none) →
      (fetch k).errs = [] →
      ((fetch k).hasNextPage = false ∨ (fetch k).endCursor = none) →
      (loadReportTagsLoop fetch).pagesLoaded = k + 1 ∧
        (loadReportTagsLoop fetch).error = none) := by
  constructor
  · intro fetch
    have := loadPages_pagesLoaded_le fetch REPORT_TAG_SCAN_MAX_PAGES 0 []
    simpa [loadReportTagsLoop] using this
  · intro fetch k hk hcont herr hstop
    have := loadPages_early_stop fetch k REPORT_TAG_SCAN_MAX_PAGES 0 [] hk
      (fun j h1 h2 => hcont j (by omega)) (by simpa using herr) (by simpa using hstop)
    simpa [loadReportTagsLoop] using this

/-- A concrete two-page fetch oracle: the first page continues, the second
reports no next page. -/
def reportFetchExample : Nat → TagPage := fun j =>
  if j = 0 then { errs := [], edgeTags := [[str "a", str " "]], hasNextPage := true,
                  endCursor := some (str "c") }
  else { errs := [], edgeTags := [], hasNextPage := false, endCursor := none }

/-- C9 witness: on the concrete oracle the loop issues exactly 2 queries and
ends without error. -/
theorem c9_report_tag_pagination_witness :
    (loadReportTagsLoop reportFetchExample).pagesLoaded = 1 + 1 ∧
    (loadReportTagsLoop reportFetchExample).error = none :=
  c9_report_tag_pagination.2 reportFetchExample 1 (by decide)
    (by decide) (by decide) (by decide)

/-! C7 and C8. The import action's submission loop. -/

theorem pushDraftRows_results (previewRows : List CsvPreviewRow) (created : CreateResult) :
    ∀ (ns : List Nat) (st : SubmitState),
      (pushDraftRows previewRows created st ns).results =
        st.results ++ ns.filterMap (fun n =>
          (rowLookupGet previewRows n).map (fun row => mkRowResult row created)) := by
  intro ns
  induction ns with
  | nil => intro st; simp [pushDraftRows]
  | cons n ns ih =>
    intro st
    unfold pushDraftRows at ih ⊢
    simp only [List.foldl_cons, List.filterMap_cons]
    cases hlook : rowLookupGet previewRows n with
    | none => rw [ih]; rfl
    | some row =>
      cases created with
      | ok id name => rw [ih]; simp [mkRowResult]
      | failure m => rw [ih]; simp [mkRowResult]


theorem submit_foldl_results (previewRows : List CsvPreviewRow)
    (outcomes : Nat → CreateResult) :
    ∀ (l : List (Nat × OrderDraft)) (st : SubmitState),
      ((l.foldl (submitDraft previewRows outcomes) st).results) =
        st.results ++ l.flatMap (fun p => draftResults previewRows (outcomes p.1) p.2) := by
  intro l
  induction l with
  | nil => intro st; simp
  | cons p l ih =>
    intro st
    simp only [List.foldl_cons, List.flatMap_cons]
    rw [ih]
    have hstep : (submitDraft previewRows outcomes st p).results =
        st.results ++ draftResults previewRows (outcomes p.1) p.2 := by
      unfold submitDraft draftResults
      cases outcomes p.1 with
      | ok id name => simp [pushDraftRows_results]
      | failure m => simp [pushDraftRows_results]
    rw [hstep, List.append_assoc]

theorem runImportAction_results (payload : ActionPayload) (outcomes : Nat → CreateResult) :
    (runImportAction payload outcomes).results =
      List.insertionSort byRowNumber
        (invalidRowResults payload.invalidRows ++
          payload.orders.enum.flatMap (fun p =>
            draftResults payload.previewRows (outcomes p.1) p.2)) := by
  unfold runImportAction
  simp only []
  rw [submit_foldl_results]

/-- C7: a failed `createOrder` outcome for one draft marks every originating
row of that draft that resolves in the preview-row lookup as failed with that
message, while the results of all drafts (earlier and later) still appear:
the final results are exactly the invalid rows plus every draft's row
results in submission order, sorted — no failure aborts the loop. And
`createOrderResult` converts thrown exceptions, top-level GraphQL errors and
API user errors into an `ok = false` message instead of propagating them. -/
theorem c7_failure_isolation :
    (∀ (payload : ActionPayload) (outcomes : Nat → CreateResult),
      (runImportAction payload outcomes).results =
        List.insertionSort byRowNumber
          (invalidRowResults payload.invalidRows ++
            payload.orders.enum.flatMap (fun p =>
              draftResults payload.previewRows (outcomes p.1) p.2))) ∧
    (∀ (payload : ActionPayload) (outcomes : Nat → CreateResult) (i : Nat)
        (draft : OrderDraft) (m : Str),
      payload.orders[i]? = some draft →
      outcomes i = .failure m →
      ∀ n ∈ draft.rowNumbers, ∀ row, rowLookupGet payload.previewRows n = some row →
        ({ row with status := str "failed", errorMessage := m } : RowResult) ∈
          (runImportAction payload outcomes).results) ∧
    (∀ m : Option Str, createOrderResult (.thrown m) =
      .failure (m.getD (str "Unexpected error while creating order."))) ∧
    (∀ (errs : List Str) (oc : Option (Option (Str × Str) × List Str)), errs ≠ [] →
      createOrderResult (.response errs oc) = .failure (List.intercalate (str "; ") errs)) ∧
    (∀ (order : Option (Str × Str)) (userErrors : List Str), userErrors ≠ [] →
      createOrderResult (.response [] (some (order, userErrors))) =
        .failure (List.intercalate (str "; ") userErrors)) := by
  refine ⟨runImportAction_results, ?_, ?_, ?_, ?_⟩
  · intro payload outcomes i draft m hget hout n hn row hrow
    rw [runImportAction_results]
    rw [(List.perm_insertionSort byRowNumber _).mem_iff]
    rw [List.mem_append]
    right
    rw [List.mem_flatMap]
    refine ⟨(i, draft), ?_, ?_⟩
    · have : payload.orders.enum[i]? = some (i, draft) := by
        rw [List.getElem?_enum, hget]
        rfl
      exact List.getElem?_mem this
    · unfold draftResults
      rw [List.mem_filterMap]
      refine ⟨n, hn, ?_⟩
      rw [hrow, hout]
      rfl
  · intro m; cases m <;> rfl
  · intro errs oc h
    show (if errs ≠ [] then CreateResult.failure (List.intercalate (str "; ") errs)
          else _) = _
    rw [if_pos h]
  · intro order userErrors h
    show (if ([] : List Str) ≠ [] then CreateResult.failure (List.intercalate (str "; ") [])
          else _) = _
    rw [if_neg (by simp)]
    show (if userErrors ≠ [] then CreateResult.failure (List.intercalate (str "; ") userErrors)
          else _) = _
    rw [if_pos h]

/-- A one-row preview used by the action-loop witnesses. -/
def previewRowW : CsvPreviewRow :=
  { rowNumber := 2, orderKey := str "k", email := str "e", variantId := str "v",
    quantity := str "1", recipient := [], destination := [] }

/-- A one-row draft used by the action-loop witnesses. -/
def draftW : OrderDraft :=
  { orderKey := str "k", rowNumbers := [2],
    input := { email := str "e", lineItems := [{ variantId := str "v", quantity := 1 }],
               currency := none, note := none, tags := none, shippingAddress := none } }

/-- A payload holding the one draft and its preview row. -/
def payloadW : ActionPayload :=
  { orders := [draftW], previewRows := [previewRowW], invalidRows := [], rowCount := none }

/-- C7 witness: with the single draft's outcome a failure `"boom"`, row 2
receives a failed result carrying that message. -/
theorem c7_failure_isolation_witness :
    ({ previewRowW with status := str "failed", errorMessage := str "boom" } : RowResult) ∈
      (runImportAction payloadW (fun _ => .failure (str "boom"))).results :=
  c7_failure_isolation.2.1 payloadW (fun _ => .failure (str "boom")) 0 draftW (str "boom")
    rfl rfl 2 (by decide) previewRowW (by decide)

/-- C8: for every payload and every sequence of per-draft outcomes, the
results list returned by the import action is sorted in ascending order of
original row number, independently of the order drafts were processed in. -/
theorem c8_results_sorted_by_rowNumber :
    ∀ (payload : ActionPayload) (outcomes : Nat → CreateResult),
      List.Sorted byRowNumber (runImportAction payload outcomes).results := by
  intro payload outcomes
  rw [runImportAction_results]
  exact List.sorted_insertionSort byRowNumber _

/-! C2. Round-tripping the shipping-report CSV through the tokenizer.
The single-step behaviour of the tokenizer on the constructed text. -/

theorem aux_quote_open (rest : List Char) (f : Str) (r : List Str) (rs : List (List Str)) :
    parseCsvRowsAux ('"' :: rest) false f r rs = parseCsvRowsAux rest true f r rs := by
  rw [parseCsvRowsAux.eq_def]
  split <;> simp_all [eq_comm]

theorem aux_inquotes_char (c : Char) (hc : c ≠ '"') (rest : List Char) (f : Str)
    (r : List Str) (rs : List (List Str)) :
    parseCsvRowsAux (c :: rest) true f r rs = parseCsvRowsAux rest true (f ++ [c]) r rs := by
  rw [parseCsvRowsAux.eq_def]
  split <;> simp_all [eq_comm]

theorem aux_quote_close (rest : List Char) (h : rest.head? ≠ some '"') (f : Str)
    (r : List Str) (rs : List (List Str)) :
    parseCsvRowsAux ('"' :: rest) true f r rs = parseCsvRowsAux rest false f r rs := by
  rw [parseCsvRowsAux.eq_def]
  split <;> simp_all [eq_comm]

/-- Scanning the quote-doubled content of a field inside quotes accumulates
exactly the original content. -/
theorem aux_scan_quoted (v : Str) : ∀ (rest : List Char), rest.head? ≠ some '"' →
    ∀ (f : Str) (r : List Str) (rs : List (List Str)),
      parseCsvRowsAux (doubleQuotes v ++ '"' :: rest) true f r rs =
        parseCsvRowsAux rest false (f ++ v) r rs := by
  induction v with
  | nil =>
    intro rest h f r rs
    simp only [doubleQuotes, List.flatMap_nil, List.nil_append, List.append_nil]
    exact aux_quote_close rest h f r rs
  | cons c v ih =>
    intro rest h f r rs
    by_cases hc : c = '"'
    · subst hc
      have hshape : doubleQuotes ('"' :: v) ++ '"' :: rest =
          '"' :: '"' :: (doubleQuotes v ++ '"' :: rest) := by
        simp [doubleQuotes]
      rw [hshape]
      have hstep : parseCsvRowsAux ('"' :: '"' :: (doubleQuotes v ++ '"' :: rest)) true f r rs =
          parseCsvRowsAux (doubleQuotes v ++ '"' :: rest) true (f ++ ['"']) r rs := rfl
      rw [hstep, ih rest h (f ++ ['"']) r rs, List.append_assoc]
      rfl
    · have hshape : doubleQuotes (c :: v) ++ '"' :: rest =
          c :: (doubleQuotes v ++ '"' :: rest) := by
        simp [doubleQuotes, hc]
      rw [hshape, aux_inquotes_char c hc, ih rest h (f ++ [c]) r rs, List.append_assoc]
      rfl

/-- Flattening newlines is the identity on newline-free values. -/
theorem flattenNewlines_of_not_mem (s : Str) (h : '\n' ∉ s) : flattenNewlines s = s := by
  induction s using flattenNewlines.induct with
  | case1 => rfl
  | case2 rest => simp at h
  | case3 rest => simp at h
  | case4 c rest h1 h2 ih =>
    have hc : '\n' ∉ rest := by
      intro hmem
      exact h (List.mem_cons_of_mem c hmem)
    rw [flattenNewlines.eq_def]
    split
    · rename_i heq
      simp at heq
    · rename_i r2 heq
      rw [heq] at h
      simp at h
    · rename_i r2 heq
      rw [heq] at h
      simp at h
    · rename_i c2 r2 x1 x2 heq
      injection heq with hce hre
      subst hce
      subst hre
      rw [ih hc]

/-- Reading one escaped field: the tokenizer consumes `csvEscape w` and
accumulates exactly `w`, provided `w` is newline-free and the next character
is not a quote. -/
theorem aux_escaped_field (w : Str) (hnl : '\n' ∉ w) (rest : List Char)
    (h : rest.head? ≠ some '"') (f : Str) (r : List Str) (rs : List (List Str)) :
    parseCsvRowsAux (csvEscape w ++ rest) false f r rs =
      parseCsvRowsAux rest false (f ++ w) r rs := by
  have hshape : csvEscape w ++ rest = '"' :: (doubleQuotes w ++ '"' :: rest) := by
    unfold csvEscape
    rw [flattenNewlines_of_not_mem w hnl]
    simp
  rw [hshape, aux_quote_open, aux_scan_quoted w rest h f r rs]

/-- One report row's fields joined by commas, each escaped (one line of the
produced CSV). -/
def escapeLine (fields : List Str) : Str :=
  List.intercalate (str ",") (fields.map csvEscape)

/-- The whole produced CSV: escaped lines joined by newlines. -/
def escapeLines (rowsList : List (List Str)) : Str :=
  List.intercalate (str "\n") (rowsList.map escapeLine)

theorem buildShippingReportCsv_eq_escapeLines (orders : List ShippingReportOrder) :
    buildShippingReportCsv orders =
      escapeLines (SHIPPING_REPORT_HEADER :: orders.map reportRowFields) := rfl

theorem intercalate_cons_cons (sep : Str) (x : Str) (y : Str) (l : List Str) :
    List.intercalate sep (x :: y :: l) = x ++ sep ++ List.intercalate sep (y :: l) := by
  simp [List.intercalate, List.intersperse]

/-- Reading one escaped line whose last character is followed by a newline or
the end of the text: the whole field list is appended to the current row. -/
theorem aux_escaped_line (init : List Str) : ∀ (last : Str) (rest : List Char),
    (∀ f ∈ init ++ [last], '\n' ∉ f) →
    (rest.head? = none ∨ rest.head? = some '\n') →
    ∀ (r : List Str) (rs : List (List Str)),
      parseCsvRowsAux (escapeLine (init ++ [last]) ++ rest) false [] r rs =
        parseCsvRowsAux rest false last (r ++ init) rs := by
  induction init with
  | nil =>
    intro last rest hnl hrest r rs
    have hhead : rest.head? ≠ some '"' := by
      rcases hrest with h | h <;> simp [h]
    have : escapeLine [last] = csvEscape last := by
      simp [escapeLine, List.intercalate]
    rw [List.nil_append, this,
      aux_escaped_field last (hnl last (List.mem_singleton.mpr rfl)) rest hhead [] r rs]
    simp
  | cons f0 init ih =>
    intro last rest hnl hrest r rs
    have hline : escapeLine ((f0 :: init) ++ [last]) =
        csvEscape f0 ++ (',' :: escapeLine (init ++ [last])) := by
      show escapeLine (f0 :: (init ++ [last])) = _
      unfold escapeLine
      rw [List.map_cons]
      cases hm : (init ++ [last]).map csvEscape with
      | nil => simp at hm
      | cons a as =>
        rw [intercalate_cons_cons]
        simp [escapeLine, hm, str]
    have hnl0 : '\n' ∉ f0 := hnl f0 (List.mem_cons_self f0 _)
    rw [hline, List.append_assoc, List.cons_append,
      aux_escaped_field f0 hnl0 (',' :: (escapeLine (init ++ [last]) ++ rest)) (by simp) [] r rs]
    have hcomma : parseCsvRowsAux (',' :: (escapeLine (init ++ [last]) ++ rest)) false
        ([] ++ f0) r rs =
        parseCsvRowsAux (escapeLine (init ++ [last]) ++ rest) false [] (r ++ [f0]) rs := rfl
    rw [hcomma, ih last rest (fun f hf => hnl f (List.mem_cons_of_mem f0 hf)) hrest (r ++ [f0]) rs,
      List.append_assoc]
    rfl

/-- Reading the whole constructed CSV: every produced line is tokenized back
to its field list, provided every field is newline-free, every row is
non-empty, and no row is entirely blank. -/
theorem aux_escaped_lines (rowsList : List (List Str)) :
    (∀ row ∈ rowsList, row ≠ [] ∧ (∀ f ∈ row, '\n' ∉ f) ∧ isEmptyArrayRow row = false) →
    ∀ rs : List (List Str),
      parseCsvRowsAux (escapeLines rowsList) false [] [] rs = rs ++ rowsList := by
  induction rowsList with
  | nil =>
    intro _ rs
    exact (List.append_nil rs).symm
  | cons row rows ih =>
    intro hrows rs
    obtain ⟨hne, hnl, hblank⟩ := hrows row (List.mem_cons_self row rows)
    obtain ⟨init, last, hrow⟩ : ∃ init last, row = init ++ [last] := by
      rcases List.eq_nil_or_concat row with h | ⟨init, last, h⟩
      · exact absurd h hne
      · exact ⟨init, last, by rw [h, List.concat_eq_append]⟩
    cases rows with
    | nil =>
      have hl : escapeLines [row] = escapeLine row ++ [] := by
        simp [escapeLines, List.intercalate, List.intersperse]
      rw [hl, hrow, aux_escaped_line init last [] (hrow ▸ hnl) (Or.inl rfl) [] rs]
      have hend : parseCsvRowsAux [] false last init rs = pushRow rs (init ++ [last]) := rfl
      rw [List.nil_append, hend, ← hrow, pushRow, hblank]
      simp
    | cons row2 rows2 =>
      have hl : escapeLines (row :: row2 :: rows2) =
          escapeLine row ++ ('\n' :: escapeLines (row2 :: rows2)) := by
        unfold escapeLines
        rw [List.map_cons, List.map_cons, intercalate_cons_cons]
        have hsep : str "\n" = ['\n'] := rfl
        rw [hsep, List.append_assoc, List.singleton_append, ← List.map_cons]
      rw [hl, hrow,
        aux_escaped_line init last ('\n' :: escapeLines (row2 :: rows2)) (hrow ▸ hnl)
          (Or.inr rfl) [] rs]
      have hstep : parseCsvRowsAux ('\n' :: escapeLines (row2 :: rows2)) false last
          ([] ++ init) rs =
          parseCsvRowsAux (escapeLines (row2 :: rows2)) false [] []
            (pushRow rs (([] ++ init) ++ [last])) := rfl
      rw [hstep]
      have hpush : pushRow rs (([] ++ init) ++ [last]) = rs ++ [row] := by
        rw [List.nil_append, ← hrow, pushRow, hblank]
        simp
      rw [hpush, ih (fun r2 h2 => hrows r2 (List.mem_cons_of_mem row h2)) (rs ++ [row])]
      simp
      exact hrow

/-- An order whose name holds an embedded newline (used to exercise the
lossy flattening). -/
def newlineOrder : ShippingReportOrder :=
  { id := str "1", name := str "a\nb", customerName := str "c",
    trackingNumbers := [str "t"] }

/-- C2 counterexample: exporting an order whose name contains a newline and
re-tokenizing does not give back the original field values — the newline was
flattened to a space, so the round trip is not exact. -/
theorem c2_roundtrip_counterexample :
    parseCsvRows (buildShippingReportCsv [newlineOrder]) =
      [SHIPPING_REPORT_HEADER, [str "a b", str "c", str "t"]] ∧
    parseCsvRows (buildShippingReportCsv [newlineOrder]) ≠
      [SHIPPING_REPORT_HEADER, reportRowFields newlineOrder] := by
  constructor
  · rfl
  · decide

/-- C2 amended: for every list of report orders whose computed field values
contain no newline character and whose rows are not entirely blank after
trimming, re-tokenizing the produced CSV with `parseCsvRows` yields exactly
the header row followed by the original field values of every order row.
(The unrestricted claim fails: embedded newlines are flattened to spaces, and
an all-blank row would be dropped by the tokenizer.) -/
theorem c2_roundtrip_amended (orders : List ShippingReportOrder)
    (hnl : ∀ o ∈ orders, ∀ f ∈ reportRowFields o, '\n' ∉ f)
    (hblank : ∀ o ∈ orders, isEmptyArrayRow (reportRowFields o) = false) :
    parseCsvRows (buildShippingReportCsv orders) =
      SHIPPING_REPORT_HEADER :: orders.map reportRowFields := by
  rw [buildShippingReportCsv_eq_escapeLines]
  have hbom : stripBom (escapeLines (SHIPPING_REPORT_HEADER :: orders.map reportRowFields)) =
      escapeLines (SHIPPING_REPORT_HEADER :: orders.map reportRowFields) := by
    have hshape : escapeLines (SHIPPING_REPORT_HEADER :: orders.map reportRowFields) =
        csvEscape (str "Order Number") ++ (',' :: escapeLine [str "Customer Name",
          str "Tracking Numbers"]) ++
          (match orders.map reportRowFields with
           | [] => []
           | l => str "\n" ++ List.intercalate (str "\n") (l.map escapeLine)) := by
      cases horders : orders.map reportRowFields with
      | nil =>
        simp only [escapeLines, List.map_cons, List.map_nil, List.intercalate]
        simp [SHIPPING_REPORT_HEADER, escapeLine, intercalate_cons_cons, str,
          List.intercalate]
      | cons r2 rl2 =>
        simp only [escapeLines, List.map_cons, intercalate_cons_cons]
        simp [SHIPPING_REPORT_HEADER, escapeLine, intercalate_cons_cons, str,
          List.intercalate]
    rw [hshape]
    rfl
  show parseCsvRowsAux (stripBom _) false [] [] [] = _
  rw [hbom]
  have hall : ∀ row ∈ SHIPPING_REPORT_HEADER :: orders.map reportRowFields,
      row ≠ [] ∧ (∀ f ∈ row, '\n' ∉ f) ∧ isEmptyArrayRow row = false := by
    intro row hrow
    rcases List.mem_cons.mp hrow with h | h
    · subst h
      refine ⟨by decide, by decide, by decide⟩
    · obtain ⟨o, ho, hoeq⟩ := List.mem_map.mp h
      subst hoeq
      refine ⟨by simp [reportRowFields], hnl o ho, hblank o ho⟩
  exact aux_escaped_lines _ hall []

/-- An order whose fields hold commas, quotes and semicolon-joined tracking
numbers (used to exercise the non-trivial escaping). -/
def trickyOrder : ShippingReportOrder :=
  { id := str "2", name := str "a,\"x\"", customerName := str " c ",
    trackingNumbers := [str "t1", str "t2"] }

/-- C2 witness: the amended round trip evaluated on the concrete order with
commas and quotes in its fields. -/
theorem c2_roundtrip_amended_witness :
    parseCsvRows (buildShippingReportCsv [trickyOrder]) =
      SHIPPING_REPORT_HEADER :: [trickyOrder].map reportRowFields :=
  c2_roundtrip_amended [trickyOrder] (by decide) (by decide)

/-! C1, C5, C10. A functional characterization of the grouping loop. -/

/-- The live (non-blank) data rows: row number paired with the record. -/
def liveOf (headers : List Str) (ps : List (Nat × List Str)) : List (Nat × CsvRecord) :=
  (ps.filter (fun p => ¬ isEmptyRecord (toRecord headers p.2))).map
    (fun p => (p.1 + 1, toRecord headers p.2))

/-- The valid entries: row number paired with the normalized value of every
live row that passes `normalizeRow`. -/
def validOf (headers : List Str) (ps : List (Nat × List Str)) : List (Nat × NormalizedRow) :=
  ps.filterMap (fun p =>
    let record := toRecord headers p.2
    if isEmptyRecord record then none
    else
      match normalizeRow record (p.1 + 1) with
      | .ok v => some (p.1 + 1, v)
      | .err _ => none)

/-- The grouping fold over the valid entries, from the empty map. -/
def buildGroups (vs : List (Nat × NormalizedRow)) : List OrderDraft :=
  vs.foldl groupStep []

/-- The valid entries whose `orderKey` is `k`, in row order. -/
def keyEntries (vs : List (Nat × NormalizedRow)) (k : Str) : List (Nat × NormalizedRow) :=
  vs.filter (fun q => q.2.orderKey = k)

/-- The entries of key `k` whose email matches the first entry of key `k`. -/
def matchingEntries (vs : List (Nat × NormalizedRow)) (k : Str) : List (Nat × NormalizedRow) :=
  match (keyEntries vs k).head? with
  | none => []
  | some p0 => (keyEntries vs k).filter (fun q => q.2.email = p0.2.email)

/-- The draft the grouping fold produces for key `k`, described directly from
the valid entries: shared fields from the first entry of the key, one line
item and one row number per matching entry. -/
def groupFor (vs : List (Nat × NormalizedRow)) (k : Str) : Option OrderDraft :=
  match (keyEntries vs k).head? with
  | none => none
  | some p0 =>
    some
      { orderKey := k
        rowNumbers := (matchingEntries vs k).map (fun q => q.1)
        input :=
          { email := p0.2.email
            lineItems := (matchingEntries vs k).map
              (fun q => { variantId := q.2.variantId, quantity := q.2.quantity })
            currency := p0.2.currency
            note := p0.2.note
            tags := p0.2.tags
            shippingAddress := p0.2.shippingAddress } }

theorem liveOf_cons_empty (headers : List Str) (p : Nat × List Str) (ps : List (Nat × List Str))
    (h : isEmptyRecord (toRecord headers p.2) = true) :
    liveOf headers (p :: ps) = liveOf headers ps := by
  simp [liveOf, h]

theorem liveOf_cons_live (headers : List Str) (p : Nat × List Str) (ps : List (Nat × List Str))
    (h : isEmptyRecord (toRecord headers p.2) = false) :
    liveOf headers (p :: ps) = (p.1 + 1, toRecord headers p.2) :: liveOf headers ps := by
  simp [liveOf, h]

theorem validOf_cons_empty (headers : List Str) (p : Nat × List Str) (ps : List (Nat × List Str))
    (h : isEmptyRecord (toRecord headers p.2) = true) :
    validOf headers (p :: ps) = validOf headers ps := by
  simp [validOf, h]

theorem validOf_cons_err (headers : List Str) (p : Nat × List Str) (ps : List (Nat × List Str))
    (h : isEmptyRecord (toRecord headers p.2) = false) (es : List Str)
    (herr : normalizeRow (toRecord headers p.2) (p.1 + 1) = .err es) :
    validOf headers (p :: ps) = validOf headers ps := by
  simp [validOf, h, herr]

theorem validOf_cons_ok (headers : List Str) (p : Nat × List Str) (ps : List (Nat × List Str))
    (h : isEmptyRecord (toRecord headers p.2) = false) (v : NormalizedRow)
    (hok : normalizeRow (toRecord headers p.2) (p.1 + 1) = .ok v) :
    validOf headers (p :: ps) = (p.1 + 1, v) :: validOf headers ps := by
  simp [validOf, h, hok]

theorem processRow_empty (headers : List Str) (st : LoopState) (p : Nat × List Str)
    (h : isEmptyRecord (toRecord headers p.2) = true) :
    processRow headers st p = st := by
  simp [processRow, h]

theorem processRow_err (headers : List Str) (st : LoopState) (p : Nat × List Str)
    (h : isEmptyRecord (toRecord headers p.2) = false) (es : List Str)
    (herr : normalizeRow (toRecord headers p.2) (p.1 + 1) = .err es) :
    processRow headers st p =
      { st with
        previewRows := st.previewRows ++ [buildPreviewRow (toRecord headers p.2) (p.1 + 1)],
        errors := st.errors ++ es,
        invalidRows := st.invalidRows ++
          [{ buildPreviewRow (toRecord headers p.2) (p.1 + 1) with
             errorMessage := List.intercalate (str " | ") es }] } := by
  simp [processRow, h, herr]

theorem processRow_ok_previewRows_grouped (headers : List Str) (st : LoopState)
    (p : Nat × List Str) (h : isEmptyRecord (toRecord headers p.2) = false)
    (v : NormalizedRow) (hok : normalizeRow (toRecord headers p.2) (p.1 + 1) = .ok v) :
    (processRow headers st p).previewRows =
      st.previewRows ++ [buildPreviewRow (toRecord headers p.2) (p.1 + 1)] ∧
    (processRow headers st p).grouped = groupStep st.grouped (p.1 + 1, v) := by
  simp only [processRow, h, Bool.false_eq_true, if_false, hok, groupStep, findDraft]
  cases hfind : st.grouped.find? (fun d => d.orderKey = v.orderKey) with
  | none => exact ⟨rfl, rfl⟩
  | some existing =>
    by_cases hmail : existing.input.email ≠ v.email
    · simp only [if_pos hmail]
      exact ⟨trivial, trivial⟩
    · simp only [if_neg hmail]
      exact ⟨trivial, trivial⟩

/-- The state of the row loop, characterized: the preview rows are the live
rows' previews, and the grouped drafts are the grouping fold over the valid
entries. -/
theorem foldl_processRow_spec (headers : List Str) :
    ∀ (ps : List (Nat × List Str)) (st : LoopState),
      ((ps.foldl (processRow headers) st).previewRows =
        st.previewRows ++ (liveOf headers ps).map (fun q => buildPreviewRow q.2 q.1)) ∧
      ((ps.foldl (processRow headers) st).grouped =
        (validOf headers ps).foldl groupStep st.grouped) := by
  intro ps
  induction ps with
  | nil => intro st; simp [liveOf, validOf]
  | cons p ps ih =>
    intro st
    simp only [List.foldl_cons]
    cases hempty : isEmptyRecord (toRecord headers p.2) with
    | true =>
      rw [processRow_empty headers st p hempty, liveOf_cons_empty headers p ps hempty,
        validOf_cons_empty headers p ps hempty]
      exact ih st
    | false =>
      cases hnr : normalizeRow (toRecord headers p.2) (p.1 + 1) with
      | err es =>
        rw [processRow_err headers st p hempty es hnr, liveOf_cons_live headers p ps hempty,
          validOf_cons_err headers p ps hempty es hnr]
        obtain ⟨ih1, ih2⟩ := ih _
        refine ⟨?_, ih2⟩
        rw [ih1]
        simp
      | ok v =>
        obtain ⟨hpr, hgr⟩ := processRow_ok_previewRows_grouped headers st p hempty v hnr
        rw [liveOf_cons_live headers p ps hempty, validOf_cons_ok headers p ps hempty v hnr]
        obtain ⟨ih1, ih2⟩ := ih (processRow headers st p)
        constructor
        · rw [ih1, hpr]
          simp
        · rw [ih2, hgr]
          rfl

theorem buildGroups_append (vs : List (Nat × NormalizedRow)) (x : Nat × NormalizedRow) :
    buildGroups (vs ++ [x]) = groupStep (buildGroups vs) x := by
  unfold buildGroups
  rw [List.foldl_append]
  rfl

theorem appendToDraft_keys (g : List OrderDraft) (k : Str) (li : LineItem) (n : Nat) :
    (appendToDraft g k li n).map (fun d => d.orderKey) = g.map (fun d => d.orderKey) := by
  unfold appendToDraft
  rw [List.map_map]
  apply List.map_congr_left
  intro d _
  by_cases h : d.orderKey = k <;> simp [h]

theorem appendToDraft_of_not_mem (g : List OrderDraft) (k : Str) (li : LineItem) (n : Nat)
    (h : ∀ d ∈ g, d.orderKey ≠ k) : appendToDraft g k li n = g := by
  induction g with
  | nil => rfl
  | cons d g ih =>
    have hd : d.orderKey ≠ k := h d (List.mem_cons_self d g)
    have hg : ∀ d2 ∈ g, d2.orderKey ≠ k := fun d2 h2 => h d2 (List.mem_cons_of_mem d h2)
    have htail := ih hg
    simp only [appendToDraft, List.map_cons, if_neg hd] at htail ⊢
    rw [htail]

theorem findDraft_appendToDraft (g : List OrderDraft) (k k2 : Str) (li : LineItem) (n : Nat) :
    findDraft (appendToDraft g k li n) k2 =
      (findDraft g k2).map (fun d =>
        if d.orderKey = k then
          { d with rowNumbers := d.rowNumbers ++ [n],
                   input := { d.input with lineItems := d.input.lineItems ++ [li] } }
        else d) := by
  unfold findDraft appendToDraft
  rw [List.find?_map]
  have hpred : ((fun (d : OrderDraft) => decide (d.orderKey = k2)) ∘ (fun (d : OrderDraft) =>
      if d.orderKey = k then
        { d with rowNumbers := d.rowNumbers ++ [n],
                 input := { d.input with lineItems := d.input.lineItems ++ [li] } }
      else d)) = (fun (d : OrderDraft) => decide (d.orderKey = k2)) := by
    funext d
    by_cases h : d.orderKey = k <;> simp [h, Function.comp]
  rw [hpred]

theorem findDraft_eq_of_keysNodup (g : List OrderDraft) (d : OrderDraft)
    (hnodup : (g.map (fun d => d.orderKey)).Nodup) (hmem : d ∈ g) :
    findDraft g d.orderKey = some d := by
  induction g with
  | nil => cases hmem
  | cons d0 g ih =>
    rw [List.map_cons, List.nodup_cons] at hnodup
    rcases List.mem_cons.mp hmem with h | h
    · subst h
      unfold findDraft
      rw [List.find?_cons_of_pos _ (by simp)]
    · have hne : ¬ (d0.orderKey = d.orderKey) := by
        intro he
        exact hnodup.1 (he ▸ List.mem_map_of_mem (fun d => d.orderKey) h)
      unfold findDraft
      rw [List.find?_cons_of_neg _ (by simp [hne])]
      exact ih hnodup.2 h

theorem filter_key_of_keysNodup (g : List OrderDraft) (k : Str)
    (hnodup : (g.map (fun d => d.orderKey)).Nodup) :
    g.filter (fun d => d.orderKey = k) = (findDraft g k).toList := by
  induction g with
  | nil => rfl
  | cons d0 g ih =>
    rw [List.map_cons, List.nodup_cons] at hnodup
    by_cases h : d0.orderKey = k
    · unfold findDraft
      rw [List.filter_cons_of_pos (by simp [h]), List.find?_cons_of_pos _ (by simp [h])]
      have hempty : g.filter (fun d => d.orderKey = k) = [] := by
        rw [List.filter_eq_nil_iff]
        intro d2 h2
        simp only [decide_eq_true_eq]
        intro he
        exact hnodup.1 (h ▸ he ▸ List.mem_map_of_mem (fun d => d.orderKey) h2)
      rw [hempty]
      rfl
    · unfold findDraft
      rw [List.filter_cons_of_neg (by simp [h]), List.find?_cons_of_neg _ (by simp [h])]
      exact ih hnodup.2

theorem groupStep_none (g : List OrderDraft) (x : Nat × NormalizedRow)
    (h : findDraft g x.2.orderKey = none) :
    groupStep g x = g ++ [mkDraft x.2 x.1] := by
  unfold groupStep
  rw [h]

theorem groupStep_conflict (g : List OrderDraft) (x : Nat × NormalizedRow)
    (existing : OrderDraft) (h : findDraft g x.2.orderKey = some existing)
    (hm : existing.input.email ≠ x.2.email) : groupStep g x = g := by
  unfold groupStep
  rw [h]
  show (if existing.input.email ≠ x.2.email then g
        else appendToDraft g x.2.orderKey
          { variantId := x.2.variantId, quantity := x.2.quantity } x.1) = g
  rw [if_pos hm]

theorem groupStep_append_li (g : List OrderDraft) (x : Nat × NormalizedRow)
    (existing : OrderDraft) (h : findDraft g x.2.orderKey = some existing)
    (hm : ¬ existing.input.email ≠ x.2.email) :
    groupStep g x = appendToDraft g x.2.orderKey
      { variantId := x.2.variantId, quantity := x.2.quantity } x.1 := by
  unfold groupStep
  rw [h]
  show (if existing.input.email ≠ x.2.email then g
        else appendToDraft g x.2.orderKey
          { variantId := x.2.variantId, quantity := x.2.quantity } x.1) = _
  rw [if_neg hm]

theorem buildGroups_keys_nodup (vs : List (Nat × NormalizedRow)) :
    ((buildGroups vs).map (fun d => d.orderKey)).Nodup := by
  induction vs using List.reverseRecOn with
  | nil => simp [buildGroups]
  | append_singleton vs x ih =>
    rw [buildGroups_append]
    cases hfind : findDraft (buildGroups vs) x.2.orderKey with
    | none =>
      rw [groupStep_none _ _ hfind]
      have hnot : x.2.orderKey ∉ (buildGroups vs).map (fun d => d.orderKey) := by
        intro hmem
        obtain ⟨d, hd, hdk⟩ := List.mem_map.mp hmem
        have := List.find?_eq_none.mp hfind d hd
        simp [hdk] at this
      simp only [List.map_append, List.map_cons, List.map_nil]
      rw [List.nodup_append]
      refine ⟨ih, List.nodup_singleton _, ?_⟩
      intro a ha hb
      simp only [List.mem_singleton] at hb
      subst hb
      exact hnot ha
    | some existing =>
      by_cases hmail : existing.input.email ≠ x.2.email
      · rw [groupStep_conflict _ _ existing hfind hmail]
        exact ih
      · rw [groupStep_append_li _ _ existing hfind hmail, appendToDraft_keys]
        exact ih

theorem keyEntries_append (vs : List (Nat × NormalizedRow)) (x : Nat × NormalizedRow)
    (k : Str) :
    keyEntries (vs ++ [x]) k =
      keyEntries vs k ++ (if x.2.orderKey = k then [x] else []) := by
  unfold keyEntries
  rw [List.filter_append]
  congr 1
  by_cases h : x.2.orderKey = k <;> simp [h]

theorem groupFor_eq_none_iff (vs : List (Nat × NormalizedRow)) (k : Str) :
    groupFor vs k = none ↔ keyEntries vs k = [] := by
  unfold groupFor
  cases hh : (keyEntries vs k).head? with
  | none => simpa using List.head?_eq_none_iff.mp hh
  | some p0 =>
    simp only [reduceCtorEq, false_iff]
    intro he
    rw [he] at hh
    cases hh

theorem matchingEntries_of_head? (vs : List (Nat × NormalizedRow)) (k : Str)
    (p0 : Nat × NormalizedRow) (hp0 : (keyEntries vs k).head? = some p0) :
    matchingEntries vs k = (keyEntries vs k).filter (fun q => q.2.email = p0.2.email) := by
  unfold matchingEntries
  rw [hp0]

theorem groupFor_of_head? (vs : List (Nat × NormalizedRow)) (k : Str)
    (p0 : Nat × NormalizedRow) (hp0 : (keyEntries vs k).head? = some p0) :
    groupFor vs k = some
      { orderKey := k
        rowNumbers := (matchingEntries vs k).map (fun q => q.1)
        input :=
          { email := p0.2.email
            lineItems := (matchingEntries vs k).map
              (fun q => { variantId := q.2.variantId, quantity := q.2.quantity })
            currency := p0.2.currency
            note := p0.2.note
            tags := p0.2.tags
            shippingAddress := p0.2.shippingAddress } } := by
  unfold groupFor
  rw [hp0]

theorem groupFor_orderKey (vs : List (Nat × NormalizedRow)) (k : Str) (d : OrderDraft)
    (h : groupFor vs k = some d) : d.orderKey = k := by
  unfold groupFor at h
  cases hh : (keyEntries vs k).head? with
  | none => rw [hh] at h; cases h
  | some p0 =>
    rw [hh] at h
    injection h with h
    rw [← h]

/-- The central characterization: looking a key up in the grouping fold's
result gives exactly the draft described by `groupFor`. -/
theorem findDraft_buildGroups (vs : List (Nat × NormalizedRow)) :
    ∀ k, findDraft (buildGroups vs) k = groupFor vs k := by
  induction vs using List.reverseRecOn with
  | nil =>
    intro k
    simp [buildGroups, findDraft, groupFor, keyEntries]
  | append_singleton vs x ih =>
    intro k
    rw [buildGroups_append]
    cases hfind : findDraft (buildGroups vs) x.2.orderKey with
    | none =>
      rw [groupStep_none _ _ hfind]
      have hkeynil : keyEntries vs x.2.orderKey = [] :=
        (groupFor_eq_none_iff vs x.2.orderKey).mp (by rw [← ih x.2.orderKey]; exact hfind)
      unfold findDraft
      rw [List.find?_append]
      by_cases hk : x.2.orderKey = k
      · subst hk
        have h1 : List.find? (fun d => decide (d.orderKey = x.2.orderKey))
            (buildGroups vs) = none := by
          have h0 := hfind
          unfold findDraft at h0
          exact h0
        rw [h1]
        have h2 : List.find? (fun d => d.orderKey = x.2.orderKey) [mkDraft x.2 x.1] =
            some (mkDraft x.2 x.1) := by
          rw [List.find?_cons_of_pos _ (by simp [mkDraft])]
        rw [h2]
        have hkey : keyEntries (vs ++ [x]) x.2.orderKey = [x] := by
          rw [keyEntries_append, hkeynil, if_pos rfl]
          rfl
        have hp0 : (keyEntries (vs ++ [x]) x.2.orderKey).head? = some x := by
          rw [hkey]
          rfl
        rw [groupFor_of_head? _ _ x hp0, matchingEntries_of_head? _ _ x hp0, hkey]
        have hmatch : [x].filter (fun q => q.2.email = x.2.email) = [x] := by
          rw [List.filter_cons_of_pos (by simp)]
          rfl
        rw [hmatch, Option.none_or]
        rfl
      · have h2 : List.find? (fun d => d.orderKey = k) [mkDraft x.2 x.1] = none := by
          rw [List.find?_cons_of_neg _ (by simp [mkDraft, hk])]
          rfl
        rw [h2]
        have hkey : keyEntries (vs ++ [x]) k = keyEntries vs k := by
          rw [keyEntries_append, if_neg hk]
          simp
        have hgf : groupFor (vs ++ [x]) k = groupFor vs k := by
          unfold groupFor matchingEntries
          rw [hkey]
        rw [hgf, Option.or_none]
        exact ih k
    | some existing =>
      have hsome : groupFor vs x.2.orderKey = some existing := by
        rw [← ih x.2.orderKey]
        exact hfind
      obtain ⟨p0, hp0⟩ : ∃ p0, (keyEntries vs x.2.orderKey).head? = some p0 := by
        cases hh : (keyEntries vs x.2.orderKey).head? with
        | none =>
          rw [(groupFor_eq_none_iff vs x.2.orderKey).mpr (List.head?_eq_none_iff.mp hh)] at hsome
          cases hsome
        | some p0 => exact ⟨p0, rfl⟩
      have hex : existing =
          { orderKey := x.2.orderKey
            rowNumbers := (matchingEntries vs x.2.orderKey).map (fun q => q.1)
            input :=
              { email := p0.2.email
                lineItems := (matchingEntries vs x.2.orderKey).map
                  (fun q => { variantId := q.2.variantId, quantity := q.2.quantity })
                currency := p0.2.currency
                note := p0.2.note
                tags := p0.2.tags
                shippingAddress := p0.2.shippingAddress } } := by
        have := groupFor_of_head? vs x.2.orderKey p0 hp0
        rw [hsome] at this
        exact Option.some_inj.mp this
      by_cases hmail : existing.input.email ≠ x.2.email
      · rw [groupStep_conflict _ _ existing hfind hmail]
        rw [ih k]
        by_cases hk : x.2.orderKey = k
        · subst hk
          have hkey : keyEntries (vs ++ [x]) x.2.orderKey =
              keyEntries vs x.2.orderKey ++ [x] := by
            rw [keyEntries_append, if_pos rfl]
          have hp0' : (keyEntries (vs ++ [x]) x.2.orderKey).head? = some p0 := by
            rw [hkey, List.head?_append, hp0]
            rfl
          have hxmail : ¬ (x.2.email = p0.2.email) := by
            intro he
            apply hmail
            rw [hex]
            exact he.symm
          have hmatch : matchingEntries (vs ++ [x]) x.2.orderKey =
              matchingEntries vs x.2.orderKey := by
            rw [matchingEntries_of_head? _ _ p0 hp0', matchingEntries_of_head? _ _ p0 hp0,
              hkey, List.filter_append, List.filter_cons_of_neg (by simp [hxmail])]
            simp
          rw [groupFor_of_head? _ _ p0 hp0', groupFor_of_head? _ _ p0 hp0, hmatch]
        · have hkey : keyEntries (vs ++ [x]) k = keyEntries vs k := by
            rw [keyEntries_append, if_neg hk]
            simp
          unfold groupFor matchingEntries
          rw [hkey]
      · rw [groupStep_append_li _ _ existing hfind hmail]
        push_neg at hmail
        rw [findDraft_appendToDraft, ih k]
        by_cases hk : x.2.orderKey = k
        · subst hk
          have hkey : keyEntries (vs ++ [x]) x.2.orderKey =
              keyEntries vs x.2.orderKey ++ [x] := by
            rw [keyEntries_append, if_pos rfl]
          have hp0' : (keyEntries (vs ++ [x]) x.2.orderKey).head? = some p0 := by
            rw [hkey, List.head?_append, hp0]
            rfl
          have hxmail : x.2.email = p0.2.email := by
            rw [hex] at hmail
            exact hmail.symm
          have hmatch : matchingEntries (vs ++ [x]) x.2.orderKey =
              matchingEntries vs x.2.orderKey ++ [x] := by
            rw [matchingEntries_of_head? _ _ p0 hp0', matchingEntries_of_head? _ _ p0 hp0,
              hkey, List.filter_append, List.filter_cons_of_pos (by simp [hxmail])]
            rfl
          rw [hsome, groupFor_of_head? _ _ p0 hp0', hmatch]
          simp only [Option.map_some']
          congr 1
          rw [hex]
          simp
        · have hkey : keyEntries (vs ++ [x]) k = keyEntries vs k := by
            rw [keyEntries_append, if_neg hk]
            simp
          have hgf : groupFor (vs ++ [x]) k = groupFor vs k := by
            unfold groupFor matchingEntries
            rw [hkey]
          rw [hgf]
          cases hgk : groupFor vs k with
          | none => rfl
          | some d =>
            have hdk : d.orderKey = k := groupFor_orderKey vs k d hgk
            simp only [Option.map_some']
            rw [if_neg (by rw [hdk]; exact fun he => hk he.symm)]

theorem processRow_ok_none (headers : List Str) (st : LoopState) (p : Nat × List Str)
    (h : isEmptyRecord (toRecord headers p.2) = false) (v : NormalizedRow)
    (hok : normalizeRow (toRecord headers p.2) (p.1 + 1) = .ok v)
    (hfind : findDraft st.grouped v.orderKey = none) :
    processRow headers st p =
      { st with
        previewRows := st.previewRows ++ [buildPreviewRow (toRecord headers p.2) (p.1 + 1)],
        grouped := st.grouped ++ [mkDraft v (p.1 + 1)] } := by
  simp [processRow, h, hok, hfind]

theorem processRow_ok_conflict (headers : List Str) (st : LoopState) (p : Nat × List Str)
    (h : isEmptyRecord (toRecord headers p.2) = false) (v : NormalizedRow)
    (hok : normalizeRow (toRecord headers p.2) (p.1 + 1) = .ok v) (existing : OrderDraft)
    (hfind : findDraft st.grouped v.orderKey = some existing)
    (hm : existing.input.email ≠ v.email) :
    processRow headers st p =
      { st with
        previewRows := st.previewRows ++ [buildPreviewRow (toRecord headers p.2) (p.1 + 1)],
        errors := st.errors ++ [conflictMsg (p.1 + 1) v.orderKey],
        invalidRows := st.invalidRows ++
          [{ buildPreviewRow (toRecord headers p.2) (p.1 + 1) with
             errorMessage := conflictMsg (p.1 + 1) v.orderKey }] } := by
  simp [processRow, h, hok, hfind, hm]

theorem processRow_ok_match (headers : List Str) (st : LoopState) (p : Nat × List Str)
    (h : isEmptyRecord (toRecord headers p.2) = false) (v : NormalizedRow)
    (hok : normalizeRow (toRecord headers p.2) (p.1 + 1) = .ok v) (existing : OrderDraft)
    (hfind : findDraft st.grouped v.orderKey = some existing)
    (hm : ¬ existing.input.email ≠ v.email) :
    processRow headers st p =
      { st with
        previewRows := st.previewRows ++ [buildPreviewRow (toRecord headers p.2) (p.1 + 1)],
        grouped := appendToDraft st.grouped v.orderKey
          { variantId := v.variantId, quantity := v.quantity } (p.1 + 1) } := by
  simp [processRow, h, hok, hfind, hm]

theorem validOf_append (headers : List Str) (ps ps2 : List (Nat × List Str)) :
    validOf headers (ps ++ ps2) = validOf headers ps ++ validOf headers ps2 := by
  unfold validOf
  rw [List.filterMap_append]

theorem liveOf_append (headers : List Str) (ps ps2 : List (Nat × List Str)) :
    liveOf headers (ps ++ ps2) = liveOf headers ps ++ liveOf headers ps2 := by
  unfold liveOf
  rw [List.filter_append, List.map_append]

theorem processRow_invalid_extends (headers : List Str) (st : LoopState) (p : Nat × List Str) :
    ∃ add, (processRow headers st p).invalidRows = st.invalidRows ++ add := by
  cases hempty : isEmptyRecord (toRecord headers p.2) with
  | true =>
    rw [processRow_empty headers st p hempty]
    exact ⟨[], (List.append_nil _).symm⟩
  | false =>
    cases hnr : normalizeRow (toRecord headers p.2) (p.1 + 1) with
    | err es =>
      rw [processRow_err headers st p hempty es hnr]
      exact ⟨_, rfl⟩
    | ok v =>
      cases hfind : findDraft st.grouped v.orderKey with
      | none =>
        rw [processRow_ok_none headers st p hempty v hnr hfind]
        exact ⟨[], (List.append_nil _).symm⟩
      | some existing =>
        by_cases hm : existing.input.email ≠ v.email
        · rw [processRow_ok_conflict headers st p hempty v hnr existing hfind hm]
          exact ⟨_, rfl⟩
        · rw [processRow_ok_match headers st p hempty v hnr existing hfind hm]
          exact ⟨[], (List.append_nil _).symm⟩

/-- The valid entries of one appended data row. -/
theorem validOf_singleton_ok (headers : List Str) (p : Nat × List Str)
    (h : isEmptyRecord (toRecord headers p.2) = false) (v : NormalizedRow)
    (hok : normalizeRow (toRecord headers p.2) (p.1 + 1) = .ok v) :
    validOf headers [p] = [(p.1 + 1, v)] := by
  simp [validOf, h, hok]

theorem validOf_singleton_empty (headers : List Str) (p : Nat × List Str)
    (h : isEmptyRecord (toRecord headers p.2) = true) :
    validOf headers [p] = [] := by
  simp [validOf, h]

theorem validOf_singleton_err (headers : List Str) (p : Nat × List Str)
    (h : isEmptyRecord (toRecord headers p.2) = false) (es : List Str)
    (herr : normalizeRow (toRecord headers p.2) (p.1 + 1) = .err es) :
    validOf headers [p] = [] := by
  simp [validOf, h, herr]

/-- Conflicting valid rows are recorded in the loop state's invalid rows with
the conflict message naming the row and the key. -/
theorem conflict_mem_invalidRows (headers : List Str) (ps : List (Nat × List Str)) :
    ∀ n v, (n, v) ∈ validOf headers ps →
      ∀ p0, (keyEntries (validOf headers ps) v.orderKey).head? = some p0 →
      p0.2.email ≠ v.email →
      ∃ ir ∈ (ps.foldl (processRow headers) initState).invalidRows,
        ir.rowNumber = n ∧ ir.errorMessage = conflictMsg n v.orderKey := by
  induction ps using List.reverseRecOn with
  | nil =>
    intro n v hmem
    simp [validOf] at hmem
  | append_singleton ps p ih =>
    intro n v hmem p0 hp0 hmail
    rw [List.foldl_append] at *
    simp only [List.foldl_cons, List.foldl_nil]
    set st := ps.foldl (processRow headers) initState with hst
    have hgrouped : st.grouped = buildGroups (validOf headers ps) := by
      have := (foldl_processRow_spec headers ps initState).2
      rw [← hst] at this
      exact this
    obtain ⟨add, hadd⟩ := processRow_invalid_extends headers st p
    rw [validOf_append] at hmem hp0
    have hold : ∀ hmemold : (n, v) ∈ validOf headers ps,
        ∃ ir ∈ (processRow headers st p).invalidRows,
          ir.rowNumber = n ∧ ir.errorMessage = conflictMsg n v.orderKey := by
      intro hmemold
      have hkeyne : keyEntries (validOf headers ps) v.orderKey ≠ [] := by
        intro he
        have : (n, v) ∈ keyEntries (validOf headers ps) v.orderKey := by
          unfold keyEntries
          rw [List.mem_filter]
          exact ⟨hmemold, by simp⟩
        rw [he] at this
        cases this
      obtain ⟨q0, hq0⟩ : ∃ q0, (keyEntries (validOf headers ps) v.orderKey).head? = some q0 := by
        cases hh : (keyEntries (validOf headers ps) v.orderKey).head? with
        | none => exact absurd (List.head?_eq_none_iff.mp hh) hkeyne
        | some q0 => exact ⟨q0, rfl⟩
      have hq0p0 : q0 = p0 := by
        have hsplit : keyEntries (validOf headers ps ++ validOf headers [p]) v.orderKey =
            keyEntries (validOf headers ps) v.orderKey ++
              keyEntries (validOf headers [p]) v.orderKey := by
          unfold keyEntries
          rw [List.filter_append]
        rw [hsplit, List.head?_append, hq0] at hp0
        simp at hp0
        exact hp0
      obtain ⟨ir, hir, hir2⟩ := ih n v hmemold q0 hq0 (hq0p0 ▸ hmail)
      refine ⟨ir, ?_, hir2⟩
      rw [hadd]
      exact List.mem_append_left add hir
    rcases List.mem_append.mp hmem with hmemold | hmemnew
    · exact hold hmemold
    · cases hempty : isEmptyRecord (toRecord headers p.2) with
      | true =>
        rw [validOf_singleton_empty headers p hempty] at hmemnew
        cases hmemnew
      | false =>
        cases hnr : normalizeRow (toRecord headers p.2) (p.1 + 1) with
        | err es =>
          rw [validOf_singleton_err headers p hempty es hnr] at hmemnew
          cases hmemnew
        | ok w =>
          rw [validOf_singleton_ok headers p hempty w hnr] at hmemnew
          rcases List.mem_singleton.mp hmemnew with hnw
          have hn : n = p.1 + 1 := congrArg Prod.fst hnw
          have hw : v = w := congrArg Prod.snd hnw
          subst hn
          subst hw
          have hkeyne : keyEntries (validOf headers ps) v.orderKey ≠ [] := by
            intro he
            rw [validOf_singleton_ok headers p hempty v hnr] at hp0
            have hsplit : keyEntries (validOf headers ps ++ [(p.1 + 1, v)]) v.orderKey =
                keyEntries (validOf headers ps) v.orderKey ++
                  keyEntries [(p.1 + 1, v)] v.orderKey := by
              unfold keyEntries
              rw [List.filter_append]
            have hone : keyEntries [(p.1 + 1, v)] v.orderKey = [(p.1 + 1, v)] := by
              unfold keyEntries
              rw [List.filter_cons_of_pos (by simp)]
              rfl
            rw [hsplit, he, hone, List.nil_append] at hp0
            have : p0 = (p.1 + 1, v) := by
              have := hp0
              simp at this
              exact this.symm
            rw [this] at hmail
            exact hmail rfl
          obtain ⟨q0, hq0⟩ : ∃ q0,
              (keyEntries (validOf headers ps) v.orderKey).head? = some q0 := by
            cases hh : (keyEntries (validOf headers ps) v.orderKey).head? with
            | none => exact absurd (List.head?_eq_none_iff.mp hh) hkeyne
            | some q0 => exact ⟨q0, rfl⟩
          have hq0p0 : q0 = p0 := by
            have hsplit : keyEntries (validOf headers ps ++ validOf headers [p]) v.orderKey =
                keyEntries (validOf headers ps) v.orderKey ++
                  keyEntries (validOf headers [p]) v.orderKey := by
              unfold keyEntries
              rw [List.filter_append]
            rw [hsplit, List.head?_append, hq0] at hp0
            simp at hp0
            exact hp0
          have hgf : groupFor (validOf headers ps) v.orderKey ≠ none := by
            intro hnone
            exact hkeyne ((groupFor_eq_none_iff _ _).mp hnone)
          obtain ⟨d, hd⟩ : ∃ d, groupFor (validOf headers ps) v.orderKey = some d := by
            cases hh : groupFor (validOf headers ps) v.orderKey with
            | none => exact absurd hh hgf
            | some d => exact ⟨d, rfl⟩
          have hdmail : d.input.email = q0.2.email := by
            have := groupFor_of_head? (validOf headers ps) v.orderKey q0 hq0
            rw [hd] at this
            have hde := Option.some_inj.mp this
            rw [hde]
          have hfind : findDraft st.grouped v.orderKey = some d := by
            rw [hgrouped, findDraft_buildGroups]
            exact hd
          have hdne : d.input.email ≠ v.email := by
            rw [hdmail, hq0p0]
            exact hmail
          rw [processRow_ok_conflict headers st p hempty v hnr d hfind hdne]
          refine ⟨_, List.mem_append_right _ (List.mem_singleton.mpr rfl), rfl, rfl⟩

theorem appendToDraft_flatMap_perm (g : List OrderDraft) (k : Str) (li : LineItem) (n : Nat)
    (hnodup : (g.map (fun d => d.orderKey)).Nodup) (d : OrderDraft)
    (hfind : findDraft g k = some d) :
    ((appendToDraft g k li n).flatMap (fun d => d.rowNumbers)).Perm
      (g.flatMap (fun d => d.rowNumbers) ++ [n]) := by
  induction g with
  | nil => cases hfind
  | cons d0 g ih =>
    rw [List.map_cons, List.nodup_cons] at hnodup
    by_cases h0 : d0.orderKey = k
    · have htailkeys : ∀ d2 ∈ g, d2.orderKey ≠ k := by
        intro d2 h2 he
        exact hnodup.1 (h0 ▸ he ▸ List.mem_map_of_mem (fun d => d.orderKey) h2)
      have htail : appendToDraft g k li n = g := appendToDraft_of_not_mem g k li n htailkeys
      simp only [appendToDraft, List.map_cons, if_pos h0] at htail ⊢
      rw [htail]
      simp only [List.flatMap_cons]
      have hperm : (d0.rowNumbers ++ [n]) ++ g.flatMap (fun d => d.rowNumbers) =
          d0.rowNumbers ++ ([n] ++ g.flatMap (fun d => d.rowNumbers)) := by
        rw [List.append_assoc]
      rw [hperm]
      have h2 : ([n] ++ g.flatMap (fun d => d.rowNumbers)).Perm
          (g.flatMap (fun d => d.rowNumbers) ++ [n]) := List.perm_append_comm
      have h3 := h2.append_left d0.rowNumbers
      refine h3.trans ?_
      rw [← List.append_assoc]
    · unfold findDraft at hfind
      rw [List.find?_cons_of_neg _ (by simp [h0])] at hfind
      have ihg := ih hnodup.2 hfind
      simp only [appendToDraft, List.map_cons, if_neg h0] at ihg ⊢
      simp only [List.flatMap_cons]
      have := ihg.append_left d0.rowNumbers
      refine this.trans ?_
      rw [← List.append_assoc]

/-- The loop's partition invariant, as a permutation: the drafts' row numbers
together with the invalid rows' row numbers are exactly the live rows' row
numbers. -/
theorem loop_perm (headers : List Str) (ps : List (Nat × List Str)) :
    (((ps.foldl (processRow headers) initState).grouped.flatMap (fun d => d.rowNumbers)) ++
      ((ps.foldl (processRow headers) initState).invalidRows.map (fun ir => ir.rowNumber))).Perm
      ((liveOf headers ps).map (fun q => q.1)) := by
  induction ps using List.reverseRecOn with
  | nil => simp [initState, liveOf]
  | append_singleton ps p ih =>
    rw [List.foldl_append]
    simp only [List.foldl_cons, List.foldl_nil]
    set st := ps.foldl (processRow headers) initState with hst
    have hgrouped : st.grouped = buildGroups (validOf headers ps) := by
      have := (foldl_processRow_spec headers ps initState).2
      rw [← hst] at this
      exact this
    rw [liveOf_append]
    cases hempty : isEmptyRecord (toRecord headers p.2) with
    | true =>
      rw [processRow_empty headers st p hempty, liveOf_cons_empty headers p [] hempty]
      have hnil : liveOf headers ([] : List (Nat × List Str)) = [] := rfl
      rw [hnil, List.append_nil]
      exact ih
    | false =>
      have hlive : liveOf headers [p] = [(p.1 + 1, toRecord headers p.2)] := by
        rw [liveOf_cons_live headers p [] hempty]
        rfl
      rw [hlive]
      cases hnr : normalizeRow (toRecord headers p.2) (p.1 + 1) with
      | err es =>
        rw [processRow_err headers st p hempty es hnr]
        have hmap : (st.invalidRows ++
            ([{ buildPreviewRow (toRecord headers p.2) (p.1 + 1) with
                errorMessage := List.intercalate (str " | ") es }] : List InvalidRow)).map
              (fun ir => ir.rowNumber) =
            st.invalidRows.map (fun ir => ir.rowNumber) ++ [p.1 + 1] := by
          rw [List.map_append]
          rfl
        rw [hmap, List.map_append]
        have hshape : st.grouped.flatMap (fun d => d.rowNumbers) ++
            (st.invalidRows.map (fun ir => ir.rowNumber) ++ [p.1 + 1]) =
            (st.grouped.flatMap (fun d => d.rowNumbers) ++
              st.invalidRows.map (fun ir => ir.rowNumber)) ++ [p.1 + 1] := by
          rw [List.append_assoc]
        rw [hshape]
        exact ih.append (List.Perm.refl _)
      | ok v =>
        cases hfind : findDraft st.grouped v.orderKey with
        | none =>
          rw [processRow_ok_none headers st p hempty v hnr hfind]
          simp only [List.map_append, List.flatMap_append, List.flatMap_cons,
            List.flatMap_nil, List.append_nil]
          show ((st.grouped.flatMap (fun d => d.rowNumbers) ++ [p.1 + 1]) ++
              st.invalidRows.map (fun ir => ir.rowNumber)).Perm _
          have h1 : ((st.grouped.flatMap (fun d => d.rowNumbers) ++ [p.1 + 1]) ++
              st.invalidRows.map (fun ir => ir.rowNumber)).Perm
              ((st.grouped.flatMap (fun d => d.rowNumbers) ++
                st.invalidRows.map (fun ir => ir.rowNumber)) ++ [p.1 + 1]) := by
            rw [List.append_assoc, List.append_assoc]
            exact (List.perm_append_comm.append_left _)
          refine h1.trans ?_
          exact ih.append (List.Perm.refl _)
        | some existing =>
          by_cases hm : existing.input.email ≠ v.email
          · rw [processRow_ok_conflict headers st p hempty v hnr existing hfind hm]
            have hmap : (st.invalidRows ++
                ([{ buildPreviewRow (toRecord headers p.2) (p.1 + 1) with
                    errorMessage := conflictMsg (p.1 + 1) v.orderKey }] : List InvalidRow)).map
                  (fun ir => ir.rowNumber) =
                st.invalidRows.map (fun ir => ir.rowNumber) ++ [p.1 + 1] := by
              rw [List.map_append]
              rfl
            rw [hmap, List.map_append]
            have hshape : st.grouped.flatMap (fun d => d.rowNumbers) ++
                (st.invalidRows.map (fun ir => ir.rowNumber) ++ [p.1 + 1]) =
                (st.grouped.flatMap (fun d => d.rowNumbers) ++
                  st.invalidRows.map (fun ir => ir.rowNumber)) ++ [p.1 + 1] := by
              rw [List.append_assoc]
            rw [hshape]
            exact ih.append (List.Perm.refl _)
          · rw [processRow_ok_match headers st p hempty v hnr existing hfind hm]
            have hnodup : (st.grouped.map (fun d => d.orderKey)).Nodup := by
              rw [hgrouped]
              exact buildGroups_keys_nodup _
            have hperm := appendToDraft_flatMap_perm st.grouped v.orderKey
              { variantId := v.variantId, quantity := v.quantity } (p.1 + 1)
              hnodup existing hfind
            have h1 := hperm.append
              (List.Perm.refl (st.invalidRows.map (fun ir => ir.rowNumber)))
            refine h1.trans ?_
            have h2 : (st.grouped.flatMap (fun d => d.rowNumbers) ++ [p.1 + 1] ++
                st.invalidRows.map (fun ir => ir.rowNumber)).Perm
                ((st.grouped.flatMap (fun d => d.rowNumbers) ++
                  st.invalidRows.map (fun ir => ir.rowNumber)) ++ [p.1 + 1]) := by
              rw [List.append_assoc, List.append_assoc]
              exact (List.perm_append_comm.append_left _)
            refine h2.trans ?_
            rw [List.map_append]
            exact ih.append (List.Perm.refl _)

/-! Row numbers are unique across the data rows. -/

theorem validOf_fst_sublist (headers : List Str) (ps : List (Nat × List Str)) :
    ((validOf headers ps).map (fun q => q.1)).Sublist (ps.map (fun p => p.1 + 1)) := by
  induction ps with
  | nil => simp [validOf]
  | cons p ps ih =>
    cases hempty : isEmptyRecord (toRecord headers p.2) with
    | true =>
      rw [validOf_cons_empty headers p ps hempty, List.map_cons]
      exact ih.cons _
    | false =>
      cases hnr : normalizeRow (toRecord headers p.2) (p.1 + 1) with
      | err es =>
        rw [validOf_cons_err headers p ps hempty es hnr, List.map_cons]
        exact ih.cons _
      | ok v =>
        rw [validOf_cons_ok headers p ps hempty v hnr, List.map_cons, List.map_cons]
        exact ih.cons₂ _

theorem liveOf_fst_sublist (headers : List Str) (ps : List (Nat × List Str)) :
    ((liveOf headers ps).map (fun q => q.1)).Sublist (ps.map (fun p => p.1 + 1)) := by
  unfold liveOf
  rw [List.map_map]
  have h1 := (List.filter_sublist (l := ps)
    (p := fun p => ¬ isEmptyRecord (toRecord headers p.2))).map (fun p => p.1 + 1)
  exact h1

theorem indexed_numbers_nodup (rows : List (List Str)) :
    ((indexedDataRows rows).map (fun p => p.1 + 1)).Nodup := by
  unfold indexedDataRows
  have h1 : (List.enumFrom 1 (rows.drop 1)).map (fun p => p.1 + 1) =
      ((List.enumFrom 1 (rows.drop 1)).map Prod.fst).map (fun i => i + 1) := by
    rw [List.map_map]
    rfl
  rw [h1, List.enumFrom_map_fst]
  exact List.Nodup.map (fun a b hab => by omega) (List.nodup_range' _ _ _ Nat.one_pos)

/-- Pairs of a first-component-unique list agree on their second components. -/
theorem snd_eq_of_fst_nodup {α : Type} (l : List (Nat × α))
    (h : (l.map (fun q => q.1)).Nodup) (n : Nat) (a b : α)
    (ha : (n, a) ∈ l) (hb : (n, b) ∈ l) : a = b := by
  induction l with
  | nil => cases ha
  | cons q l ih =>
    rw [List.map_cons, List.nodup_cons] at h
    rcases List.mem_cons.mp ha with ha1 | ha1 <;> rcases List.mem_cons.mp hb with hb1 | hb1
    · exact congrArg Prod.snd (ha1.trans hb1.symm)
    · exfalso
      apply h.1
      have : q.1 = n := congrArg Prod.fst ha1.symm
      rw [this]
      exact List.mem_map_of_mem (fun q => q.1) hb1
    · exfalso
      apply h.1
      have : q.1 = n := congrArg Prod.fst hb1.symm
      rw [this]
      exact List.mem_map_of_mem (fun q => q.1) ha1
    · exact ih h.2 ha1 hb1

/-! The assembled `parseCsvToOrders`, under the claims' header hypotheses. -/

/-- The normalized headers of the CSV text. -/
def csvHeaders (csvText : Str) : List Str :=
  ((parseCsvRows csvText).headD []).map normalizeHeader

/-- The final state of the row loop of `parseCsvToOrders`. -/
def loopStateOf (csvText : Str) : LoopState :=
  (indexedDataRows (parseCsvRows csvText)).foldl (processRow (csvHeaders csvText)) initState

/-- The valid entries of the CSV text's data rows. -/
def csvValidEntries (csvText : Str) : List (Nat × NormalizedRow) :=
  validOf (csvHeaders csvText) (indexedDataRows (parseCsvRows csvText))

theorem parseCsvToOrders_spec (t : Str) (hlen : ¬ (parseCsvRows t).length < 2)
    (hmiss : REQUIRED_COLUMNS.filter (fun h => ¬ (csvHeaders t).contains h) = []) :
    parseCsvToOrders t =
      { rowCount := (loopStateOf t).previewRows.length
        orders := (loopStateOf t).grouped
        previewRows := (loopStateOf t).previewRows
        invalidRows := (loopStateOf t).invalidRows
        errors := (loopStateOf t).errors ++
          (if (loopStateOf t).previewRows.length = 0
           then [str "No non-empty data rows found."] else []) } := by
  unfold csvHeaders at hmiss
  simp only [parseCsvToOrders]
  rw [if_neg hlen, if_neg (fun hne => hne hmiss)]
  rfl

theorem loopStateOf_grouped (t : Str) :
    (loopStateOf t).grouped = buildGroups (csvValidEntries t) := by
  have := (foldl_processRow_spec (csvHeaders t) (indexedDataRows (parseCsvRows t)) initState).2
  exact this

theorem loopStateOf_previewRows (t : Str) :
    (loopStateOf t).previewRows =
      (liveOf (csvHeaders t) (indexedDataRows (parseCsvRows t))).map
        (fun q => buildPreviewRow q.2 q.1) := by
  have := (foldl_processRow_spec (csvHeaders t) (indexedDataRows (parseCsvRows t)) initState).1
  simpa [initState] using this

/-- Every draft the grouping fold produces has as many line items as
originating row numbers. -/
theorem buildGroups_lineItems_length (vs : List (Nat × NormalizedRow)) :
    ∀ d ∈ buildGroups vs, d.input.lineItems.length = d.rowNumbers.length := by
  intro d hd
  have hfind : findDraft (buildGroups vs) d.orderKey = some d :=
    findDraft_eq_of_keysNodup (buildGroups vs) d (buildGroups_keys_nodup vs) hd
  rw [findDraft_buildGroups] at hfind
  obtain ⟨p0, hp0⟩ : ∃ p0, (keyEntries vs d.orderKey).head? = some p0 := by
    cases hh : (keyEntries vs d.orderKey).head? with
    | none =>
      rw [(groupFor_eq_none_iff vs d.orderKey).mpr (List.head?_eq_none_iff.mp hh)] at hfind
      cases hfind
    | some p0 => exact ⟨p0, rfl⟩
  have := groupFor_of_head? vs d.orderKey p0 hp0
  rw [hfind] at this
  have hde := Option.some_inj.mp this
  rw [hde]
  simp

theorem countP_enumFrom (f : List Str → Bool) :
    ∀ (l : List (List Str)) (i : Nat),
      (List.enumFrom i l).countP (fun p => f p.2) = l.countP f := by
  intro l
  induction l with
  | nil => intro i; rfl
  | cons a l ih =>
    intro i
    rw [List.enumFrom_cons, List.countP_cons, List.countP_cons, ih]

/-- A CSV whose single data row is blank on every header column but carries a
non-blank fifth cell beyond the four header columns. -/
def overflowCsv : Str := str "order_key,email,variant_id,quantity\n,,,,x"

/-- C5 counterexample: on `overflowCsv` the importer reports `rowCount = 0`,
yet the CSV has exactly one data row that is not blank under the claim's
definition of blank (all cells empty after trimming) — the row's content sits
beyond the header columns, so the empty-record check drops it. -/
theorem c5_rowCount_counterexample :
    (parseCsvToOrders overflowCsv).rowCount = 0 ∧
    ((parseCsvRows overflowCsv).drop 1).countP (fun row => ¬ isEmptyArrayRow row) = 1 := by
  constructor
  · decide
  · decide

/-- C5 amended: for every CSV accepted past header validation, `rowCount`
equals the number of data rows whose projection onto the header columns is
not entirely blank after trimming (a row whose non-blank content lies only in
cells beyond the header columns counts as blank). -/
theorem c5_rowCount_amended (t : Str) (hlen : ¬ (parseCsvRows t).length < 2)
    (hmiss : REQUIRED_COLUMNS.filter (fun h => ¬ (csvHeaders t).contains h) = []) :
    (parseCsvToOrders t).rowCount =
      ((parseCsvRows t).drop 1).countP
        (fun row => ¬ isEmptyRecord (toRecord (csvHeaders t) row)) := by
  rw [parseCsvToOrders_spec t hlen hmiss]
  show (loopStateOf t).previewRows.length = _
  rw [loopStateOf_previewRows, List.length_map]
  unfold liveOf
  rw [List.length_map, ← List.countP_eq_length_filter]
  unfold indexedDataRows
  exact countP_enumFrom (fun row => ¬ isEmptyRecord (toRecord (csvHeaders t) row))
    ((parseCsvRows t).drop 1) 1

/-- C5 witness: the amended row count evaluated on the concrete overflow CSV
(the only data row is blank on the header columns, so the count is 0). -/
theorem c5_rowCount_amended_witness :
    (parseCsvToOrders overflowCsv).rowCount =
      ((parseCsvRows overflowCsv).drop 1).countP
        (fun row => ¬ isEmptyRecord (toRecord (csvHeaders overflowCsv) row)) :=
  c5_rowCount_amended overflowCsv (by decide) (by decide)

/-- The spec's running example: three rows share `order_key` 1001 (the third
with a different email), one row has key 1002. -/
def exampleCsv : Str :=
  str "order_key,email,variant_id,quantity\n1001,a@x.com,111,1\n1001,a@x.com,222,2\n1001,b@x.com,333,1\n1002,c@x.com,12345,3"

/-- The grouping property of C1, stated for one CSV text: every key with a
valid row yields exactly one draft, described by `groupFor` (shared fields
from the first valid row of the key, one line item and one row number per
valid row of the key whose email matches the first row's); every draft has as
many line items as contributing rows; and every valid row whose email differs
from its key's first row is excluded from all drafts and recorded in
`invalidRows` with the conflict message naming its row number and key. -/
def c1Conclusion (t : Str) : Prop :=
  (∀ k : Str, (parseCsvToOrders t).orders.filter (fun d => d.orderKey = k) =
      (groupFor (csvValidEntries t) k).toList) ∧
  (∀ d ∈ (parseCsvToOrders t).orders, d.input.lineItems.length = d.rowNumbers.length) ∧
  (∀ (n : Nat) (v : NormalizedRow) (p0 : Nat × NormalizedRow),
    (n, v) ∈ csvValidEntries t →
    (keyEntries (csvValidEntries t) v.orderKey).head? = some p0 →
    p0.2.email ≠ v.email →
    (∃ ir ∈ (parseCsvToOrders t).invalidRows,
      ir.rowNumber = n ∧ ir.errorMessage = conflictMsg n v.orderKey) ∧
    (∀ d ∈ (parseCsvToOrders t).orders, n ∉ d.rowNumbers))

/-- C1: for every CSV whose header passes validation, valid rows sharing an
`order_key` and the first row's email fold into exactly one draft with one
line item and one row number per contributing row, and a later valid row with
the same key but a different email is excluded from every draft and recorded
in `invalidRows` with the conflict message naming its row number and key. -/
theorem c1_grouping (t : Str) (hlen : ¬ (parseCsvRows t).length < 2)
    (hmiss : REQUIRED_COLUMNS.filter (fun h => ¬ (csvHeaders t).contains h) = []) :
    c1Conclusion t := by
  unfold c1Conclusion
  rw [parseCsvToOrders_spec t hlen hmiss]
  have hnodup : ((csvValidEntries t).map (fun q => q.1)).Nodup :=
    (validOf_fst_sublist (csvHeaders t) (indexedDataRows (parseCsvRows t))).nodup
      (indexed_numbers_nodup (parseCsvRows t))
  refine ⟨?_, ?_, ?_⟩
  · intro k
    show (loopStateOf t).grouped.filter (fun d => d.orderKey = k) = _
    rw [loopStateOf_grouped,
      filter_key_of_keysNodup _ k (buildGroups_keys_nodup (csvValidEntries t)),
      findDraft_buildGroups]
  · show ∀ d ∈ (loopStateOf t).grouped, d.input.lineItems.length = d.rowNumbers.length
    rw [loopStateOf_grouped]
    exact buildGroups_lineItems_length (csvValidEntries t)
  · intro n v p0 hmem hp0 hmail
    constructor
    · show ∃ ir ∈ (loopStateOf t).invalidRows,
        ir.rowNumber = n ∧ ir.errorMessage = conflictMsg n v.orderKey
      exact conflict_mem_invalidRows (csvHeaders t) (indexedDataRows (parseCsvRows t))
        n v hmem p0 hp0 hmail
    · show ∀ d ∈ (loopStateOf t).grouped, n ∉ d.rowNumbers
      rw [loopStateOf_grouped]
      intro d hd hn
      have hfind : findDraft (buildGroups (csvValidEntries t)) d.orderKey = some d :=
        findDraft_eq_of_keysNodup _ d (buildGroups_keys_nodup _) hd
      rw [findDraft_buildGroups] at hfind
      obtain ⟨p1, hp1⟩ : ∃ p1, (keyEntries (csvValidEntries t) d.orderKey).head? = some p1 := by
        cases hh : (keyEntries (csvValidEntries t) d.orderKey).head? with
        | none =>
          rw [(groupFor_eq_none_iff _ _).mpr (List.head?_eq_none_iff.mp hh)] at hfind
          cases hfind
        | some p1 => exact ⟨p1, rfl⟩
      have hrows : d.rowNumbers =
          (matchingEntries (csvValidEntries t) d.orderKey).map (fun q => q.1) := by
        have h0 := groupFor_of_head? (csvValidEntries t) d.orderKey p1 hp1
        rw [hfind] at h0
        rw [Option.some_inj.mp h0]
      rw [hrows] at hn
      simp only [List.mem_map] at hn
      obtain ⟨q, hq, hqn⟩ := hn
      rw [matchingEntries_of_head? _ _ p1 hp1, List.mem_filter] at hq
      obtain ⟨hq1, hq2⟩ := hq
      have hq2' : q.2.email = p1.2.email := by simpa using hq2
      have hq3 : q ∈ csvValidEntries t ∧ q.2.orderKey = d.orderKey := by
        unfold keyEntries at hq1
        rw [List.mem_filter] at hq1
        exact ⟨hq1.1, by simpa using hq1.2⟩
      have hqmem : (n, q.2) ∈ csvValidEntries t := by
        rw [← hqn]
        exact hq3.1
      have hveq : q.2 = v := snd_eq_of_fst_nodup _ hnodup n q.2 v hqmem hmem
      have hkeyeq : v.orderKey = d.orderKey := by
        rw [← hveq]
        exact hq3.2
      have hp1p0 : p1 = p0 := by
        rw [hkeyeq] at hp0
        rw [hp0] at hp1
        exact (Option.some_inj.mp hp1).symm
      apply hmail
      rw [← hp1p0, ← hq2', hveq]

/-- C1 witness: the grouping property evaluated on the spec's running
example CSV. -/
theorem c1_grouping_witness : c1Conclusion exampleCsv :=
  c1_grouping exampleCsv (by decide) (by decide)

/-- The partition property of C10, stated for one CSV text: the drafts' row
numbers together with the invalid rows' row numbers are a permutation of the
preview (non-blank) rows' row numbers, those row numbers are distinct, and
every draft has as many line items as row numbers — so each non-blank data
row lands in exactly one place. -/
def c10Conclusion (t : Str) : Prop :=
  ((parseCsvToOrders t).orders.flatMap (fun d => d.rowNumbers) ++
    (parseCsvToOrders t).invalidRows.map (fun ir => ir.rowNumber)).Perm
    ((parseCsvToOrders t).previewRows.map (fun pr => pr.rowNumber)) ∧
  ((parseCsvToOrders t).previewRows.map (fun pr => pr.rowNumber)).Nodup ∧
  (∀ d ∈ (parseCsvToOrders t).orders, d.input.lineItems.length = d.rowNumbers.length)

/-- C10: for every CSV accepted past header validation, each non-blank data
row number appears exactly once across the output — in the row numbers of
exactly one draft or in exactly one invalid-row entry — and each draft's line
item count equals its row number count. -/
theorem c10_row_partition (t : Str) (hlen : ¬ (parseCsvRows t).length < 2)
    (hmiss : REQUIRED_COLUMNS.filter (fun h => ¬ (csvHeaders t).contains h) = []) :
    c10Conclusion t := by
  unfold c10Conclusion
  rw [parseCsvToOrders_spec t hlen hmiss]
  have hpreview : (loopStateOf t).previewRows.map (fun pr => pr.rowNumber) =
      (liveOf (csvHeaders t) (indexedDataRows (parseCsvRows t))).map (fun q => q.1) := by
    rw [loopStateOf_previewRows, List.map_map]
    rfl
  refine ⟨?_, ?_, ?_⟩
  · show ((loopStateOf t).grouped.flatMap (fun d => d.rowNumbers) ++
        (loopStateOf t).invalidRows.map (fun ir => ir.rowNumber)).Perm
        ((loopStateOf t).previewRows.map (fun pr => pr.rowNumber))
    rw [hpreview]
    exact loop_perm (csvHeaders t) (indexedDataRows (parseCsvRows t))
  · show ((loopStateOf t).previewRows.map (fun pr => pr.rowNumber)).Nodup
    rw [hpreview]
    exact (liveOf_fst_sublist (csvHeaders t) (indexedDataRows (parseCsvRows t))).nodup
      (indexed_numbers_nodup (parseCsvRows t))
  · show ∀ d ∈ (loopStateOf t).grouped, d.input.lineItems.length = d.rowNumbers.length
    rw [loopStateOf_grouped]
    exact buildGroups_lineItems_length (csvValidEntries t)

/-- C10 witness: the partition property evaluated on the example CSV. -/
theorem c10_row_partition_witness : c10Conclusion exampleCsv :=
  c10_row_partition exampleCsv (by decide) (by decide)

end SCA
